import Mathlib

/-!
Verification of the `graphiti-mcp-pro` repository against its specification.

Part I embeds pure frontend functions that are present verbatim in the
source tree (`formatUsageValue`, the `useRealtimeLogs` message handler, the
settings form conversions).

Part II models the asynchronous task manager described by the specification.
The task-manager implementation itself is not among the provided source
files (only the spec describes it), so those definitions are modelled from
the spec, as their doc comments state.
-/

namespace Usage

/-- A JavaScript value reaching `formatUsageValue`: `null`, `NaN`, or a
finite number (modelled as a rational, since every JS float that is not
`NaN`/`Infinity` is rational and the function only compares and divides). -/
inductive UsageInput where
  | null : UsageInput
  | nan : UsageInput
  | num (q : ℚ) : UsageInput
deriving DecidableEq, Repr

/-- Structured result of `formatUsageValue`: the JS `NaN` number, a string
built as `"<integer>" ++ suffix` via `toFixed()`, or the plain
`value.toString()` of the input number. -/
inductive FormatResult where
  | nan : FormatResult
  | suffixed (n : ℤ) (suffix : Char) : FormatResult
  | plain (q : ℚ) : FormatResult
deriving DecidableEq, Repr

/-- JS `Number.prototype.toFixed()` with zero digits: the nearest integer,
picking the larger integer on ties (ECMA-262 chooses the larger `n`).
Every argument reaching it in `formatUsageValue` is positive. -/
def jsToFixed (q : ℚ) : ℤ := ⌊q + 1/2⌋

/-- Embedding of `formatUsageValue` (token-usage page utility), mirroring
its if/else-if chain over the thresholds 1e12, 1e9, 1e6, 1e3. -/
def formatUsageValue : UsageInput → FormatResult
  | .null => .nan
  | .nan => .nan
  | .num q =>
      if q ≥ 1000000000000 then .suffixed (jsToFixed (q / 1000000000000)) 'T'
      else if q ≥ 1000000000 then .suffixed (jsToFixed (q / 1000000000)) 'B'
      else if q ≥ 1000000 then .suffixed (jsToFixed (q / 1000000)) 'M'
      else if q ≥ 1000 then .suffixed (jsToFixed (q / 1000)) 'K'
      else .plain q

/-- The descending list of (threshold, suffix) pairs named by the claim. -/
def thresholds : List (ℚ × Char) :=
  [(1000000000000, 'T'), (1000000000, 'B'), (1000000, 'M'), (1000, 'K')]

/-- The claim's wording: pick the largest threshold `t` with `v ≥ t` (the
first hit in the descending list) and emit `round (v/t)` with its suffix;
below every threshold, emit `v.toString()`. -/
def formatUsageValueSpec : UsageInput → FormatResult
  | .null => .nan
  | .nan => .nan
  | .num q =>
      match thresholds.find? (fun p => q ≥ p.1) with
      | some p => .suffixed (jsToFixed (q / p.1)) p.2
      | none => .plain q

end Usage

/-- C9: `formatUsageValue` returns NaN on NaN/null input; otherwise it uses
the largest threshold in {1e12, 1e9, 1e6, 1e3} not exceeding the value,
rounding the scaled value to the nearest integer and appending
'T'/'B'/'M'/'K'; any value below 1e3 — in particular every negative finite
value — is returned via `toString()`. -/
theorem c9_formatUsageValue_spec :
    (∀ v : Usage.UsageInput, Usage.formatUsageValue v = Usage.formatUsageValueSpec v) ∧
    (Usage.formatUsageValue .nan = .nan ∧ Usage.formatUsageValue .null = .nan) ∧
    (∀ q : ℚ, q < 0 → Usage.formatUsageValue (.num q) = .plain q) := by
  refine ⟨?_, ⟨rfl, rfl⟩, ?_⟩
  · intro v
    cases v with
    | null => rfl
    | nan => rfl
    | num q =>
        simp only [Usage.formatUsageValue, Usage.formatUsageValueSpec, Usage.thresholds]
        by_cases h1 : q ≥ 1000000000000
        · rw [List.find?_cons_of_pos _ (by simpa using h1)]
          simp [h1]
        · rw [List.find?_cons_of_neg _ (by simpa using h1)]
          by_cases h2 : q ≥ 1000000000
          · rw [List.find?_cons_of_pos _ (by simpa using h2)]
            simp [h1, h2]
          · rw [List.find?_cons_of_neg _ (by simpa using h2)]
            by_cases h3 : q ≥ 1000000
            · rw [List.find?_cons_of_pos _ (by simpa using h3)]
              simp [h1, h2, h3]
            · rw [List.find?_cons_of_neg _ (by simpa using h3)]
              by_cases h4 : q ≥ 1000
              · rw [List.find?_cons_of_pos _ (by simpa using h4)]
                simp [h1, h2, h3, h4]
              · rw [List.find?_cons_of_neg _ (by simpa using h4)]
                simp [h1, h2, h3, h4]
  · intro q hq
    simp only [Usage.formatUsageValue]
    have h1 : ¬ (q ≥ 1000000000000) := by linarith
    have h2 : ¬ (q ≥ 1000000000) := by linarith
    have h3 : ¬ (q ≥ 1000000) := by linarith
    have h4 : ¬ (q ≥ 1000) := by linarith
    simp [h1, h2, h3, h4]

/-- Witness for C9: instantiating the quantifiers at concrete inputs. -/
theorem c9_formatUsageValue_spec_witness :
    Usage.formatUsageValue (.num 1500) = Usage.formatUsageValueSpec (.num 1500) ∧
    Usage.formatUsageValue (.num (-7)) = .plain (-7) :=
  ⟨c9_formatUsageValue_spec.1 (.num 1500),
   c9_formatUsageValue_spec.2.2 (-7) (by norm_num)⟩

namespace Logs

/-- A log entry as in the frontend `LogEntry` type (`id`, `timestamp`,
`level`, `message`, optional `source`). -/
structure LogEntry where
  id : String
  timestamp : String
  level : String
  message : String
  source : Option String
deriving DecidableEq, Repr

/-- One server-sent message as seen by `useRealtimeLogs`'s `onMessage`
handler, classified by how the handler's guard treats it: `malformed`
(JSON.parse throws), `falsy` (parses to a falsy value), `withError`
(parses to an object whose `error` field is truthy), or a proper entry. -/
inductive SSEMessage where
  | malformed : SSEMessage
  | falsy : SSEMessage
  | withError : SSEMessage
  | entry (e : LogEntry) : SSEMessage
deriving DecidableEq, Repr

/-- JS `array.slice(-n)`: the last `n` elements in order (the whole array
when it is shorter than `n`). -/
def takeRight (n : ℕ) (l : List α) : List α := (l.reverse.take n).reverse

/-- Embedding of the `onMessage` handler body: on a successfully parsed,
truthy, error-free message it sets the state to
`[...prev, logData].slice(-100)`; any other message leaves the state
unchanged (the catch branch only logs). -/
def onMessageStep (logs : List LogEntry) : SSEMessage → List LogEntry
  | .entry e => takeRight 100 (logs ++ [e])
  | .malformed => logs
  | .falsy => logs
  | .withError => logs

/-- The `realtimeLogs` state after the handler has processed a sequence of
messages, starting from the initial `[]`. -/
def processMessages (ms : List SSEMessage) : List LogEntry :=
  ms.foldl onMessageStep []

/-- The messages the handler accepts, in arrival order. -/
def acceptedEntries (ms : List SSEMessage) : List LogEntry :=
  ms.filterMap (fun m => match m with | .entry e => some e | _ => none)

theorem length_takeRight (n : ℕ) (l : List α) : (takeRight n l).length ≤ n := by
  simp [takeRight, List.length_take]

theorem takeRight_takeRight_append (n : ℕ) (l l₂ : List α) :
    takeRight n (takeRight n l ++ l₂) = takeRight n (l ++ l₂) := by
  simp only [takeRight, List.reverse_append, List.reverse_reverse]
  congr 1
  rw [List.take_append_eq_append_take, List.take_append_eq_append_take,
    List.take_take]
  rw [min_eq_left (Nat.sub_le _ _)]

theorem foldl_onMessageStep (ms : List SSEMessage) (s : List LogEntry)
    (hs : takeRight 100 s = s) :
    ms.foldl onMessageStep s = takeRight 100 (s ++ acceptedEntries ms) := by
  induction ms generalizing s with
  | nil => simpa [acceptedEntries] using hs.symm
  | cons m ms ih =>
      cases m with
      | entry e =>
          rw [List.foldl_cons]
          show List.foldl onMessageStep (takeRight 100 (s ++ [e])) ms = _
          rw [ih (takeRight 100 (s ++ [e]))
            (by simp [takeRight, List.take_take])]
          rw [takeRight_takeRight_append]
          simp [acceptedEntries]
      | malformed => simpa [acceptedEntries, onMessageStep] using ih s hs
      | falsy => simpa [acceptedEntries, onMessageStep] using ih s hs
      | withError => simpa [acceptedEntries, onMessageStep] using ih s hs

end Logs

/-- C8: after any sequence of server-sent messages, `realtimeLogs` holds at
most 100 entries, namely exactly the most recently accepted entries in
arrival order (`slice(-100)` of all accepted ones); a malformed, falsy, or
error-carrying message leaves the state unchanged. -/
theorem c8_realtimeLogs_bounded :
    (∀ ms : List Logs.SSEMessage, (Logs.processMessages ms).length ≤ 100) ∧
    (∀ ms : List Logs.SSEMessage,
      Logs.processMessages ms = Logs.takeRight 100 (Logs.acceptedEntries ms)) ∧
    (∀ logs : List Logs.LogEntry,
      Logs.onMessageStep logs .malformed = logs ∧
      Logs.onMessageStep logs .falsy = logs ∧
      Logs.onMessageStep logs .withError = logs) := by
  have key : ∀ ms : List Logs.SSEMessage,
      Logs.processMessages ms = Logs.takeRight 100 (Logs.acceptedEntries ms) := by
    intro ms
    rw [Logs.processMessages, Logs.foldl_onMessageStep ms [] rfl]
    rfl
  refine ⟨fun ms => ?_, key, fun logs => ⟨rfl, rfl, rfl⟩⟩
  rw [key]
  exact Logs.length_takeRight 100 _

namespace SettingsUI

/-- The backend `Setting` record from the frontend API types: the optional
TypeScript fields (`small_llm_*`, `embedding_*`) are `Option`s, numeric
fields are modelled as integers (`llm_temperature` as a rational). -/
structure Setting where
  id : ℕ
  llm_base_url : String
  llm_api_key : String
  llm_model_name : String
  small_llm_base_url : Option String
  small_llm_api_key : Option String
  small_llm_model_name : Option String
  llm_temperature : ℚ
  embedding_base_url : Option String
  embedding_api_key : Option String
  embedding_model_name : Option String
  neo4j_uri : String
  neo4j_user : String
  neo4j_password : String
  semaphore_limit : ℤ
  log_save_days : ℤ
  clean_logs_at_hour : ℤ
  enable_sync_return : Bool
deriving DecidableEq, Repr

/-- The `SettingUpdate` payload: every field optional, as in the
TypeScript interface. -/
structure SettingUpdate where
  llm_base_url : Option String
  llm_api_key : Option String
  llm_model_name : Option String
  small_llm_base_url : Option String
  small_llm_api_key : Option String
  small_llm_model_name : Option String
  llm_temperature : Option ℚ
  embedding_base_url : Option String
  embedding_api_key : Option String
  embedding_model_name : Option String
  neo4j_uri : Option String
  neo4j_user : Option String
  neo4j_password : Option String
  semaphore_limit : Option ℤ
  log_save_days : Option ℤ
  clean_logs_at_hour : Option ℤ
  enable_sync_return : Option Bool
deriving DecidableEq, Repr

/-- The Neo4j section of the frontend `SettingsForm`. -/
structure Neo4jForm where
  uri : String
  user : String
  password : String
deriving DecidableEq, Repr

/-- The large-model section of the `SettingsForm`. -/
structure ModelForm where
  baseUrl : String
  apiKey : String
  modelName : String
deriving DecidableEq, Repr

/-- The small-model / embedding sections of the `SettingsForm`, which add
the `sameAsLarge` switch. -/
structure DerivedModelForm where
  sameAsLarge : Bool
  baseUrl : String
  apiKey : String
  modelName : String
deriving DecidableEq, Repr

/-- The frontend `SettingsForm` state. -/
structure SettingsForm where
  parallelRequests : ℤ
  logSaveDays : ℤ
  cleanLogsAtHour : ℤ
  neo4j : Neo4jForm
  largeModel : ModelForm
  smallModel : DerivedModelForm
  embedding : DerivedModelForm
deriving DecidableEq, Repr

/-- JS `a || b` on an optional string: `b` when `a` is undefined or the
(falsy) empty string. -/
def jsOrElse (o : Option String) (d : String) : String :=
  match o with
  | none => d
  | some s => if s = "" then d else s

/-- Embedding of `isSmallModelSameAsLarge`: the three small-model fields
strictly equal the large-model ones, or all three are null/undefined. -/
def isSmallModelSameAsLarge (s : Setting) : Bool :=
  (s.small_llm_base_url == some s.llm_base_url &&
    s.small_llm_api_key == some s.llm_api_key &&
    s.small_llm_model_name == some s.llm_model_name) ||
  (s.small_llm_base_url == none &&
    s.small_llm_api_key == none &&
    s.small_llm_model_name == none)

/-- Embedding of `isEmbeddingSameAsLarge`. -/
def isEmbeddingSameAsLarge (s : Setting) : Bool :=
  (s.embedding_base_url == some s.llm_base_url &&
    s.embedding_api_key == some s.llm_api_key &&
    s.embedding_model_name == some s.llm_model_name) ||
  (s.embedding_base_url == none &&
    s.embedding_api_key == none &&
    s.embedding_model_name == none)

/-- Embedding of `settingToForm`. -/
def settingToForm (s : Setting) : SettingsForm :=
  let sameSmall := isSmallModelSameAsLarge s
  let sameEmb := isEmbeddingSameAsLarge s
  { parallelRequests := s.semaphore_limit
    logSaveDays := s.log_save_days
    cleanLogsAtHour := s.clean_logs_at_hour
    neo4j := { uri := s.neo4j_uri, user := s.neo4j_user, password := s.neo4j_password }
    largeModel :=
      { baseUrl := s.llm_base_url, apiKey := s.llm_api_key, modelName := s.llm_model_name }
    smallModel :=
      { sameAsLarge := sameSmall
        baseUrl := if sameSmall then s.llm_base_url else jsOrElse s.small_llm_base_url ""
        apiKey := if sameSmall then s.llm_api_key else jsOrElse s.small_llm_api_key ""
        modelName := if sameSmall then s.llm_model_name else jsOrElse s.small_llm_model_name "" }
    embedding :=
      { sameAsLarge := sameEmb
        baseUrl := if sameEmb then s.llm_base_url else jsOrElse s.embedding_base_url ""
        apiKey := if sameEmb then s.llm_api_key else jsOrElse s.embedding_api_key ""
        modelName := if sameEmb then s.llm_model_name else jsOrElse s.embedding_model_name "" } }

/-- Embedding of `formToSettingUpdate`; the object literal omits
`llm_temperature` and `enable_sync_return` (they are commented out in the
source), hence `none` for those two. -/
def formToSettingUpdate (f : SettingsForm) : SettingUpdate :=
  { semaphore_limit := some f.parallelRequests
    log_save_days := some f.logSaveDays
    clean_logs_at_hour := some f.cleanLogsAtHour
    neo4j_uri := some f.neo4j.uri
    neo4j_user := some f.neo4j.user
    neo4j_password := some f.neo4j.password
    llm_base_url := some f.largeModel.baseUrl
    llm_api_key := some f.largeModel.apiKey
    llm_model_name := some f.largeModel.modelName
    small_llm_base_url :=
      some (if f.smallModel.sameAsLarge then f.largeModel.baseUrl else f.smallModel.baseUrl)
    small_llm_api_key :=
      some (if f.smallModel.sameAsLarge then f.largeModel.apiKey else f.smallModel.apiKey)
    small_llm_model_name :=
      some (if f.smallModel.sameAsLarge then f.largeModel.modelName else f.smallModel.modelName)
    embedding_base_url :=
      some (if f.embedding.sameAsLarge then f.largeModel.baseUrl else f.embedding.baseUrl)
    embedding_api_key :=
      some (if f.embedding.sameAsLarge then f.largeModel.apiKey else f.embedding.apiKey)
    embedding_model_name :=
      some (if f.embedding.sameAsLarge then f.largeModel.modelName else f.embedding.modelName)
    llm_temperature := none
    enable_sync_return := none }

end SettingsUI

/-- C10: when the small-model and embedding sections coincide with the
large model (including the all-null encoding), the round trip
`formToSettingUpdate (settingToForm s)` reproduces `s`'s scalar, Neo4j and
large-model fields, and sends the large-model values for all
`small_llm_*` and `embedding_*` fields. -/
theorem c10_settings_roundtrip (s : SettingsUI.Setting)
    (hsmall : SettingsUI.isSmallModelSameAsLarge s = true)
    (hemb : SettingsUI.isEmbeddingSameAsLarge s = true) :
    let u := SettingsUI.formToSettingUpdate (SettingsUI.settingToForm s)
    u.semaphore_limit = some s.semaphore_limit ∧
    u.log_save_days = some s.log_save_days ∧
    u.clean_logs_at_hour = some s.clean_logs_at_hour ∧
    u.neo4j_uri = some s.neo4j_uri ∧
    u.neo4j_user = some s.neo4j_user ∧
    u.neo4j_password = some s.neo4j_password ∧
    u.llm_base_url = some s.llm_base_url ∧
    u.llm_api_key = some s.llm_api_key ∧
    u.llm_model_name = some s.llm_model_name ∧
    u.small_llm_base_url = some s.llm_base_url ∧
    u.small_llm_api_key = some s.llm_api_key ∧
    u.small_llm_model_name = some s.llm_model_name ∧
    u.embedding_base_url = some s.llm_base_url ∧
    u.embedding_api_key = some s.llm_api_key ∧
    u.embedding_model_name = some s.llm_model_name := by
  simp [SettingsUI.formToSettingUpdate, SettingsUI.settingToForm, hsmall, hemb]

/-- Witness for C10: a concrete setting whose small-model and embedding
fields are all null. -/
theorem c10_settings_roundtrip_witness :
    SettingsUI.isSmallModelSameAsLarge
        { id := 1, llm_base_url := "u", llm_api_key := "k", llm_model_name := "m",
          small_llm_base_url := none, small_llm_api_key := none,
          small_llm_model_name := none, llm_temperature := 0,
          embedding_base_url := none, embedding_api_key := none,
          embedding_model_name := none, neo4j_uri := "n", neo4j_user := "nu",
          neo4j_password := "np", semaphore_limit := 10, log_save_days := 7,
          clean_logs_at_hour := 3, enable_sync_return := false } = true ∧
    (SettingsUI.formToSettingUpdate (SettingsUI.settingToForm
        { id := 1, llm_base_url := "u", llm_api_key := "k", llm_model_name := "m",
          small_llm_base_url := none, small_llm_api_key := none,
          small_llm_model_name := none, llm_temperature := 0,
          embedding_base_url := none, embedding_api_key := none,
          embedding_model_name := none, neo4j_uri := "n", neo4j_user := "nu",
          neo4j_password := "np", semaphore_limit := 10, log_save_days := 7,
          clean_logs_at_hour := 3, enable_sync_return := false })).small_llm_base_url =
      some "u" := by
  refine ⟨by decide, ?_⟩
  exact (c10_settings_roundtrip _ (by decide) (by decide)).2.2.2.2.2.2.2.2.2.1

namespace TaskMgr

/-- Modelled from the spec: task lifecycle states (§3); the task-manager
implementation is not among the provided source files. Terminal states are
Completed, Failed, Cancelled. -/
inductive TaskStatus where
  | pending
  | running
  | completed
  | failed
  | cancelled
deriving DecidableEq, Repr

/-- Whether a status is terminal (§3). -/
def TaskStatus.isTerminal : TaskStatus → Bool
  | .completed => true
  | .failed => true
  | .cancelled => true
  | .pending => false
  | .running => false

/-- Modelled from the spec: the Task record of §3 (the task-manager code is
absent from the sources). Timestamps are logical instants. -/
structure Task where
  id : ℕ
  group_id : String
  payload : String
  status : TaskStatus
  created_at : ℕ
  started_at : Option ℕ
  finished_at : Option ℕ
  result : Option String
  error : Option String
  cancel_requested : Bool
deriving DecidableEq, Repr

/-- Modelled from the spec: per-group concurrency accounting (§3 Group
Slot): the `in_use` counter and the FIFO queue of waiting task ids. -/
structure GroupSlot where
  in_use : ℕ
  waiters : List ℕ
deriving DecidableEq, Repr

/-- Modelled from the spec: the state shared by the task-manager
components — the Task Record Store (list of records, newest first), the id
generator, the group slots, and a logical clock. -/
structure MgrState where
  tasks : List Task
  nextId : ℕ
  groups : List (String × GroupSlot)
  clock : ℕ
deriving Repr

/-- `get(id)` of the Task Record Store. -/
def findTask (st : MgrState) (tid : ℕ) : Option Task :=
  st.tasks.find? (fun t => t.id == tid)

/-- The status a caller observes for a task id (`none` = NotFound). -/
def statusOf (st : MgrState) (tid : ℕ) : Option TaskStatus :=
  (findTask st tid).map Task.status

/-- The slot of a group, if the group was ever submitted to. -/
def lookupGroup (st : MgrState) (g : String) : Option GroupSlot :=
  st.groups.lookup g

/-- Atomic update of the single record with the given id (§4.1: updates to
a single record are serialized; ids are unique). -/
def updateTask (st : MgrState) (tid : ℕ) (f : Task → Task) : MgrState :=
  { st with tasks := st.tasks.map (fun t => if t.id = tid then f t else t) }

/-- Update of one group's slot (the admission controller's counters are
internally serialized, §5). -/
def updateGroup (st : MgrState) (g : String) (f : GroupSlot → GroupSlot) : MgrState :=
  { st with groups := st.groups.map (fun p => if p.1 = g then (p.1, f p.2) else p) }

/-- Modelled from the spec: submission-time validation (§4.3) — the
request is invalid when `group_id` or `payload` is absent, or `group_id`
is malformed (empty). -/
def validRequest (gid payload : Option String) : Bool :=
  match gid, payload with
  | some g, some _ => g != ""
  | _, _ => false

/-- The Pending record the Dispatcher creates (§4.3). -/
def newTask (id : ℕ) (g p : String) (now : ℕ) : Task :=
  { id := id, group_id := g, payload := p, status := .pending,
    created_at := now, started_at := none, finished_at := none,
    result := none, error := none, cancel_requested := false }

/-- Append a freshly created task to its group's FIFO queue, creating the
group slot lazily on first submission (§9). -/
def enqueueWaiter (st : MgrState) (g : String) (tid : ℕ) : MgrState :=
  match lookupGroup st g with
  | some _ => updateGroup st g (fun s => { s with waiters := s.waiters ++ [tid] })
  | none => { st with groups := (g, { in_use := 0, waiters := [tid] }) :: st.groups }

/-- Submission failure (§7 taxonomy). -/
inductive SubmitErr where
  | invalidRequest
deriving DecidableEq, Repr

/-- Modelled from the spec: `submit(group_id, payload) -> task_id` (§4.3):
validates synchronously, fails fast with InvalidRequest creating no
record; otherwise creates a Pending record, enqueues it for admission and
returns the fresh id at once. -/
def submit (gid payload : Option String) (st : MgrState) :
    Except SubmitErr (ℕ × MgrState) :=
  match gid, payload with
  | some g, some p =>
      if g = "" then .error .invalidRequest
      else
        let id := st.nextId
        let st1 : MgrState :=
          { st with tasks := newTask id g p st.clock :: st.tasks,
                    nextId := id + 1, clock := st.clock + 1 }
        .ok (id, enqueueWaiter st1 g id)
  | _, _ => .error .invalidRequest

/-- Modelled from the spec: the Group Admission Controller hands the freed
or free slot to the head of the FIFO queue when `in_use < capacity`
(§4.2); granting a permit and entering Running are atomic (§3). -/
def grantPermit (cap : String → ℕ) (g : String) (st : MgrState) : MgrState :=
  match lookupGroup st g with
  | none => st
  | some slot =>
      match slot.waiters with
      | [] => st
      | h :: rest =>
          if slot.in_use < cap g then
            match statusOf st h with
            | some .pending =>
                let st1 := updateGroup st g
                  (fun s => { s with in_use := s.in_use + 1, waiters := rest })
                updateTask st1 h
                  (fun t => { t with status := .running, started_at := some st.clock })
            | _ => st
          else st

/-- `release(permit)`: decrement the group's `in_use` counter (§4.2). -/
def releasePermit (st : MgrState) (g : String) : MgrState :=
  updateGroup st g (fun s => { s with in_use := s.in_use - 1 })

/-- Modelled from the spec: the Runner outcome when the engine returns a
result (§4.4): normally Completed with `result` and `finished_at` set and
the permit released; if cancellation was requested meanwhile, the task is
forced to Cancelled and the would-be result discarded. -/
def finishOk (tid : ℕ) (r : String) (st : MgrState) : MgrState :=
  match findTask st tid with
  | none => st
  | some t =>
      if t.status = .running then
        let st1 := releasePermit st t.group_id
        if t.cancel_requested then
          updateTask st1 tid
            (fun u => { u with status := .cancelled, finished_at := some st.clock })
        else
          updateTask st1 tid
            (fun u => { u with status := .completed, result := some r,
                               finished_at := some st.clock })
      else st

/-- Modelled from the spec: the Runner outcome when the engine fails
(§4.4): Failed, `error` and `finished_at` set, permit released, no
automatic retry. -/
def finishErr (tid : ℕ) (e : String) (st : MgrState) : MgrState :=
  match findTask st tid with
  | none => st
  | some t =>
      if t.status = .running then
        updateTask (releasePermit st t.group_id) tid
          (fun u => { u with status := .failed, error := some e,
                             finished_at := some st.clock })
      else st

/-- Modelled from the spec: a cooperative checkpoint (§4.4) — a Running
task whose `cancel_requested` flag is set transitions to Cancelled and
releases its permit. -/
def checkpointCancel (tid : ℕ) (st : MgrState) : MgrState :=
  match findTask st tid with
  | none => st
  | some t =>
      if t.status = .running then
        if t.cancel_requested then
          updateTask (releasePermit st t.group_id) tid
            (fun u => { u with status := .cancelled, finished_at := some st.clock })
        else st
      else st

/-- Responses of `cancel(task_id)` (§4.5). -/
inductive CancelResp where
  | ack
  | notFound
  | alreadyTerminal
deriving DecidableEq, Repr

/-- Drop one task id from a group's waiter queue. -/
def removeWaiter (st : MgrState) (g : String) (tid : ℕ) : MgrState :=
  updateGroup st g (fun s => { s with waiters := s.waiters.filter (fun w => w != tid) })

/-- Modelled from the spec: `cancel(task_id)` (§4.5): a Pending, queued
task is removed from the waiter queue and moved directly to Cancelled (no
permit consumed); a Running task has `cancel_requested` latched; a
terminal task is left untouched (AlreadyTerminal). -/
def cancelTask (tid : ℕ) (st : MgrState) : CancelResp × MgrState :=
  match findTask st tid with
  | none => (.notFound, st)
  | some t =>
      if t.status.isTerminal then (.alreadyTerminal, st)
      else if t.status = .pending then
        (.ack, updateTask (removeWaiter st t.group_id tid) tid
          (fun u => { u with status := .cancelled, finished_at := some st.clock,
                             cancel_requested := true }))
      else
        (.ack, updateTask st tid (fun u => { u with cancel_requested := true }))

/-- The terminal outcome a waiter receives (status plus result/error). -/
structure TaskOutcome where
  status : TaskStatus
  result : Option String
  error : Option String
deriving DecidableEq, Repr

/-- What a `wait(task_id, ...)` call observes when issued against a state:
NotFound, an immediate terminal outcome (no suspension), or the fact that
it would suspend until completion or timeout (§4.5). -/
inductive WaitView where
  | notFound
  | immediate (o : TaskOutcome)
  | wouldSuspend
deriving DecidableEq, Repr

/-- Modelled from the spec: the Completion Hub's `wait` as a read-only
projection of the record (§4.5): a terminal task yields its outcome
immediately; otherwise the caller would suspend. -/
def waitView (st : MgrState) (tid : ℕ) : WaitView :=
  match findTask st tid with
  | none => .notFound
  | some t =>
      if t.status.isTerminal then .immediate ⟨t.status, t.result, t.error⟩
      else .wouldSuspend

/-- Modelled from the spec: the events that mutate the shared state, one
writer at a time (§5): a submission, an asynchronous admission grant, the
Runner's three outcomes, and a cancel call. -/
inductive Action where
  | submit (gid payload : Option String)
  | grant (g : String)
  | finishOk (tid : ℕ) (r : String)
  | finishErr (tid : ℕ) (e : String)
  | checkpointCancel (tid : ℕ)
  | cancel (tid : ℕ)
deriving DecidableEq, Repr

/-- One interleaving step of an execution. -/
def step (cap : String → ℕ) (st : MgrState) : Action → MgrState
  | .submit gid p =>
      match submit gid p st with
      | .ok (_, st') => st'
      | .error _ => st
  | .grant g => grantPermit cap g st
  | .finishOk tid r => finishOk tid r st
  | .finishErr tid e => finishErr tid e st
  | .checkpointCancel tid => checkpointCancel tid st
  | .cancel tid => (cancelTask tid st).2

/-- The empty initial state (task state is process-lifetime only, §1). -/
def initState : MgrState := { tasks := [], nextId := 0, groups := [], clock := 0 }

/-- The state after an execution prefix. -/
def run (cap : String → ℕ) (acts : List Action) : MgrState :=
  acts.foldl (step cap) initState

/-- The state after the first `k` events of an execution. -/
def stateAt (cap : String → ℕ) (acts : List Action) (k : ℕ) : MgrState :=
  run cap (acts.take k)

/-- Number of Running tasks of a group. -/
def runningCount (st : MgrState) (g : String) : ℕ :=
  st.tasks.countP (fun t => t.group_id == g && t.status == TaskStatus.running)

/-- Number of Running tasks across all groups. -/
def totalRunning (st : MgrState) : ℕ :=
  st.tasks.countP (fun t => t.status == TaskStatus.running)

end TaskMgr

namespace TaskMgr

theorem find?_map_of_pred_eq {α : Type} (g : α → α) (p : α → Bool)
    (hg : ∀ a, p (g a) = p a) (l : List α) :
    (l.map g).find? p = (l.find? p).map g := by
  induction l with
  | nil => rfl
  | cons a l ih =>
      by_cases h : p a = true
      · rw [List.map_cons, List.find?_cons_of_pos _ (by rw [hg]; exact h),
          List.find?_cons_of_pos _ h]
        rfl
      · rw [List.map_cons, List.find?_cons_of_neg _ (by rw [hg]; exact h),
          List.find?_cons_of_neg _ h, ih]

theorem findTask_updateTask (st : MgrState) (tid tid' : ℕ) (f : Task → Task)
    (hf : ∀ t, (f t).id = t.id) :
    findTask (updateTask st tid f) tid'
      = if tid' = tid then (findTask st tid).map f else findTask st tid' := by
  have hpred : ∀ t : Task, ((if t.id = tid then f t else t).id == tid') = (t.id == tid') := by
    intro t
    by_cases h : t.id = tid <;> simp [h, hf]
  show (st.tasks.map fun t => if t.id = tid then f t else t).find? (fun t => t.id == tid') = _
  rw [find?_map_of_pred_eq _ _ hpred]
  by_cases htid : tid' = tid
  · subst htid
    cases hfind : st.tasks.find? (fun t => t.id == tid') with
    | none => simp [findTask, hfind]
    | some t =>
        have hid : t.id = tid' := by simpa using List.find?_some hfind
        simp [findTask, hfind, hid]
  · cases hfind : st.tasks.find? (fun t => t.id == tid') with
    | none => simp [findTask, hfind, htid]
    | some t =>
        have hid : t.id = tid' := by simpa using List.find?_some hfind
        have hne : ¬ t.id = tid := by rw [hid]; exact htid
        simp [findTask, hfind, htid, hne]

theorem lookup_cons_eq {β : Type} (k g' : String) (v : β) (l : List (String × β)) :
    ((k, v) :: l).lookup g' = if g' = k then some v else l.lookup g' := by
  by_cases h : g' = k
  · rw [List.lookup_cons]
    simp [h]
  · rw [List.lookup_cons]
    simp [beq_eq_false_iff_ne.mpr h, h]

theorem lookup_map_update {β : Type} (l : List (String × β)) (g g' : String) (f : β → β) :
    (l.map (fun p => if p.1 = g then (p.1, f p.2) else p)).lookup g'
      = if g' = g then (l.lookup g).map f else l.lookup g' := by
  induction l with
  | nil => by_cases h : g' = g <;> simp [h]
  | cons p l ih =>
      obtain ⟨k, v⟩ := p
      rw [List.map_cons]
      by_cases hk : k = g
      · subst hk
        simp only [ite_true]
        rw [lookup_cons_eq]
        by_cases hg' : g' = k
        · subst hg'
          rw [lookup_cons_eq]
          simp
        · rw [ih]
          have h2 : ((k, v) :: l).lookup g' = l.lookup g' := by
            rw [lookup_cons_eq, if_neg hg']
          have h3 : ((k, v) :: l).lookup k = some v := by
            rw [lookup_cons_eq, if_pos rfl]
          simp [hg', h2]
      · simp only [hk, ite_false]
        rw [lookup_cons_eq]
        by_cases hg' : g' = k
        · subst hg'
          have hne : ¬ g' = g := hk
          have h2 : ((g', v) :: l).lookup g' = some v := by
            rw [lookup_cons_eq, if_pos rfl]
          simp [hne, h2]
        · rw [if_neg hg', ih]
          have h2 : ((k, v) :: l).lookup g' = l.lookup g' := by
            rw [lookup_cons_eq, if_neg hg']
          have h3 : ((k, v) :: l).lookup g = l.lookup g := by
            rw [lookup_cons_eq, if_neg (fun hc => hk hc.symm)]
          rw [h2, h3]

theorem lookup_none_of_not_mem_keys {β : Type} (l : List (String × β)) (g : String)
    (h : g ∉ l.map Prod.fst) : l.lookup g = none := by
  induction l with
  | nil => rfl
  | cons p l ih =>
      obtain ⟨k, v⟩ := p
      rw [lookup_cons_eq]
      have h1 : ¬ g = k := by
        intro hc
        exact h (by simp [hc])
      have h2 : g ∉ l.map Prod.fst := by
        intro hc
        exact h (by simp [hc])
      simp [h1, ih h2]

theorem not_mem_keys_of_lookup_none {β : Type} (l : List (String × β)) (g : String)
    (h : l.lookup g = none) : g ∉ l.map Prod.fst := by
  induction l with
  | nil => simp
  | cons p l ih =>
      obtain ⟨k, v⟩ := p
      rw [lookup_cons_eq] at h
      by_cases hk : g = k
      · simp [hk] at h
      · simp only [hk, ite_false] at h
        simp [hk, ih h]

theorem countP_map_update (l : List Task) (tid : ℕ) (f : Task → Task) (p : Task → Bool)
    (hnd : (l.map Task.id).Nodup) (t0 : Task) (ht0 : t0 ∈ l) (hid : t0.id = tid) :
    (l.map (fun t => if t.id = tid then f t else t)).countP p + (if p t0 then 1 else 0)
      = l.countP p + (if p (f t0) then 1 else 0) := by
  induction l with
  | nil => cases ht0
  | cons a l ih =>
      rw [List.map_cons, List.countP_cons, List.countP_cons]
      rw [List.map_cons, List.nodup_cons] at hnd
      rcases List.mem_cons.mp ht0 with h0 | h0
      · subst h0
        have hrest : ∀ t ∈ l, ¬ t.id = tid := by
          intro t htl hc
          exact hnd.1 (by rw [hid, ← hc]; exact List.mem_map.mpr ⟨t, htl, rfl⟩)
        have hmap : l.map (fun t => if t.id = tid then f t else t) = l := by
          conv_rhs => rw [← List.map_id l]
          exact List.map_congr_left (fun t htl => by simp [hrest t htl])
        rw [hmap, if_pos hid]
        split_ifs <;> omega
      · have hane : ¬ a.id = tid := by
          intro hc
          exact hnd.1 (by rw [← hc] at hid; rw [← hid]; exact List.mem_map.mpr ⟨t0, h0, rfl⟩)
        rw [if_neg hane]
        have := ih hnd.2 h0
        omega

theorem mem_id_unique {l : List Task} (hnd : (l.map Task.id).Nodup)
    {t1 t2 : Task} (h1 : t1 ∈ l) (h2 : t2 ∈ l) (h : t1.id = t2.id) : t1 = t2 :=
  List.inj_on_of_nodup_map hnd h1 h2 h

theorem findTask_eq_some_iff (st : MgrState) (tid : ℕ) (t : Task)
    (hnd : (st.tasks.map Task.id).Nodup) :
    findTask st tid = some t ↔ t ∈ st.tasks ∧ t.id = tid := by
  constructor
  · intro h
    exact ⟨List.mem_of_find?_eq_some h, by simpa using List.find?_some h⟩
  · rintro ⟨hmem, hid⟩
    cases hfind : findTask st tid with
    | none =>
        rw [findTask, List.find?_eq_none] at hfind
        exact absurd (by simpa using hid) (hfind t hmem)
    | some u =>
        have hu : u ∈ st.tasks ∧ u.id = tid :=
          ⟨List.mem_of_find?_eq_some hfind, by simpa using List.find?_some hfind⟩
        rw [mem_id_unique hnd hmem hu.1 (by rw [hid, hu.2])]

end TaskMgr

namespace TaskMgr

theorem updateTask_groups (st : MgrState) (tid : ℕ) (f : Task → Task) :
    (updateTask st tid f).groups = st.groups := rfl

theorem updateTask_nextId (st : MgrState) (tid : ℕ) (f : Task → Task) :
    (updateTask st tid f).nextId = st.nextId := rfl

theorem updateGroup_tasks (st : MgrState) (g : String) (f : GroupSlot → GroupSlot) :
    (updateGroup st g f).tasks = st.tasks := rfl

theorem updateGroup_nextId (st : MgrState) (g : String) (f : GroupSlot → GroupSlot) :
    (updateGroup st g f).nextId = st.nextId := rfl

theorem lookupGroup_updateGroup (st : MgrState) (g g' : String) (f : GroupSlot → GroupSlot) :
    lookupGroup (updateGroup st g f) g'
      = if g' = g then (lookupGroup st g).map f else lookupGroup st g' :=
  lookup_map_update st.groups g g' f

theorem keys_updateGroup (st : MgrState) (g : String) (f : GroupSlot → GroupSlot) :
    (updateGroup st g f).groups.map Prod.fst = st.groups.map Prod.fst := by
  show (st.groups.map _).map Prod.fst = _
  rw [List.map_map]
  apply List.map_congr_left
  intro p hp
  by_cases h : p.1 = g <;> simp [h]

theorem ids_updateTask (st : MgrState) (tid : ℕ) (f : Task → Task)
    (hf : ∀ t, (f t).id = t.id) :
    (updateTask st tid f).tasks.map Task.id = st.tasks.map Task.id := by
  show (st.tasks.map _).map Task.id = _
  rw [List.map_map]
  apply List.map_congr_left
  intro t ht
  by_cases h : t.id = tid <;> simp [h, hf]

theorem mem_updateTask (st : MgrState) (tid : ℕ) (f : Task → Task) (t' : Task) :
    t' ∈ (updateTask st tid f).tasks ↔
      ∃ t ∈ st.tasks, t' = if t.id = tid then f t else t := by
  show t' ∈ st.tasks.map _ ↔ _
  rw [List.mem_map]
  constructor
  · rintro ⟨t, ht, rfl⟩
    exact ⟨t, ht, rfl⟩
  · rintro ⟨t, ht, rfl⟩
    exact ⟨t, ht, rfl⟩

theorem runningCount_updateGroup (st : MgrState) (g : String) (f : GroupSlot → GroupSlot)
    (g' : String) : runningCount (updateGroup st g f) g' = runningCount st g' := rfl

/-- Modelled from the spec: the state invariant maintained by the task
manager across all events — unique bounded ids, per-group accounting
(`0 ≤ in_use ≤ capacity`, `in_use` = number of Running tasks), FIFO
queues of Pending tasks sorted by submission order, cleanliness of
`result`/`error` (§3 invariants), and the FIFO property that a started
task precedes every queued task of its group. -/
structure Inv (cap : String → ℕ) (st : MgrState) : Prop where
  ids_lt : ∀ t ∈ st.tasks, t.id < st.nextId
  ids_nodup : (st.tasks.map Task.id).Nodup
  keys_nodup : (st.groups.map Prod.fst).Nodup
  group_exists : ∀ t ∈ st.tasks, lookupGroup st t.group_id ≠ none
  waiter_pending : ∀ g slot, lookupGroup st g = some slot → ∀ tid ∈ slot.waiters,
    ∃ t ∈ st.tasks, t.id = tid ∧ t.group_id = g ∧ t.status = TaskStatus.pending
  waiters_sorted : ∀ g slot, lookupGroup st g = some slot →
    slot.waiters.Pairwise (· < ·)
  in_use_eq : ∀ g slot, lookupGroup st g = some slot → slot.in_use = runningCount st g
  cap_bound : ∀ g slot, lookupGroup st g = some slot → slot.in_use ≤ cap g
  pending_clean : ∀ t ∈ st.tasks, t.status = TaskStatus.pending →
    t.started_at = none ∧ t.result = none ∧ t.error = none
  running_clean : ∀ t ∈ st.tasks, t.status = TaskStatus.running →
    t.result = none ∧ t.error = none
  result_completed : ∀ t ∈ st.tasks, t.result ≠ none → t.status = TaskStatus.completed
  error_failed : ∀ t ∈ st.tasks, t.error ≠ none → t.status = TaskStatus.failed
  started_fifo : ∀ t ∈ st.tasks, t.started_at ≠ none →
    ∀ slot, lookupGroup st t.group_id = some slot → ∀ w ∈ slot.waiters, t.id < w

theorem Inv_init (cap : String → ℕ) : Inv cap initState := by
  constructor <;> simp [initState, lookupGroup, runningCount]

end TaskMgr

namespace TaskMgr

theorem newTask_fields (idv : ℕ) (g p : String) (c : ℕ) :
    (newTask idv g p c).id = idv ∧ (newTask idv g p c).group_id = g ∧
    (newTask idv g p c).status = TaskStatus.pending ∧
    (newTask idv g p c).started_at = none ∧ (newTask idv g p c).result = none ∧
    (newTask idv g p c).error = none :=
  ⟨rfl, rfl, rfl, rfl, rfl, rfl⟩

theorem Inv_submit_existing (cap : String → ℕ) (st : MgrState) (g pl : String)
    (slot : GroupSlot) (hI : Inv cap st) (hlg : lookupGroup st g = some slot) :
    Inv cap (updateGroup
      ⟨newTask st.nextId g pl st.clock :: st.tasks, st.nextId + 1, st.groups, st.clock + 1⟩
      g (fun s => { s with waiters := s.waiters ++ [st.nextId] })) := by
  have h1 : lookupGroup
      (⟨newTask st.nextId g pl st.clock :: st.tasks, st.nextId + 1, st.groups,
        st.clock + 1⟩ : MgrState) g = some slot := hlg
  have hlookup : ∀ g', lookupGroup (updateGroup
      ⟨newTask st.nextId g pl st.clock :: st.tasks, st.nextId + 1, st.groups, st.clock + 1⟩
      g (fun s => { s with waiters := s.waiters ++ [st.nextId] })) g'
      = if g' = g then some { slot with waiters := slot.waiters ++ [st.nextId] }
        else lookupGroup st g' := by
    intro g'
    rw [lookupGroup_updateGroup, h1]
    rfl
  have hrc : ∀ g', runningCount (updateGroup
      ⟨newTask st.nextId g pl st.clock :: st.tasks, st.nextId + 1, st.groups, st.clock + 1⟩
      g (fun s => { s with waiters := s.waiters ++ [st.nextId] })) g'
      = runningCount st g' := by
    intro g'
    show List.countP _ (newTask st.nextId g pl st.clock :: st.tasks) = _
    rw [List.countP_cons]
    simp [newTask, runningCount]
  have hwait_lt : ∀ w ∈ slot.waiters, w < st.nextId := by
    intro w hw
    obtain ⟨t, ht, hid, _, _⟩ := hI.waiter_pending g slot hlg w hw
    exact hid ▸ hI.ids_lt t ht
  constructor
  · intro t ht
    rcases List.mem_cons.mp ht with rfl | ht
    · show st.nextId < st.nextId + 1
      omega
    · have := hI.ids_lt t ht
      show t.id < st.nextId + 1
      omega
  · show ((newTask st.nextId g pl st.clock :: st.tasks).map Task.id).Nodup
    rw [List.map_cons, List.nodup_cons]
    refine ⟨?_, hI.ids_nodup⟩
    intro hmem
    obtain ⟨t, ht, hid⟩ := List.mem_map.mp hmem
    have := hI.ids_lt t ht
    have hN : (newTask st.nextId g pl st.clock).id = st.nextId := rfl
    omega
  · rw [keys_updateGroup]
    exact hI.keys_nodup
  · intro t ht
    rcases List.mem_cons.mp ht with rfl | ht
    · rw [hlookup]
      have : (newTask st.nextId g pl st.clock).group_id = g := rfl
      rw [this, if_pos rfl]
      simp
    · rw [hlookup]
      by_cases hgg : t.group_id = g
      · rw [if_pos hgg]; simp
      · rw [if_neg hgg]; exact hI.group_exists t ht
  · intro g' slot' hl' tid htid
    rw [hlookup] at hl'
    by_cases hgg : g' = g
    · rw [if_pos hgg] at hl'
      have hs := Option.some.inj hl'
      subst hgg
      rw [← hs] at htid
      rcases List.mem_append.mp htid with hold | hnew
      · obtain ⟨t, ht, hid, hgr, hst⟩ := hI.waiter_pending g' slot hlg tid hold
        exact ⟨t, List.mem_cons_of_mem _ ht, hid, hgr, hst⟩
      · have : tid = st.nextId := by simpa using hnew
        subst this
        exact ⟨newTask st.nextId g' pl st.clock, List.mem_cons_self _ _, rfl, rfl, rfl⟩
    · rw [if_neg hgg] at hl'
      obtain ⟨t, ht, hid, hgr, hst⟩ := hI.waiter_pending g' slot' hl' tid htid
      exact ⟨t, List.mem_cons_of_mem _ ht, hid, hgr, hst⟩
  · intro g' slot' hl'
    rw [hlookup] at hl'
    by_cases hgg : g' = g
    · rw [if_pos hgg] at hl'
      have hs := Option.some.inj hl'
      rw [← hs]
      show (slot.waiters ++ [st.nextId]).Pairwise (· < ·)
      rw [List.pairwise_append]
      refine ⟨hI.waiters_sorted g slot hlg, by simp, ?_⟩
      intro a ha b hb
      have hb' : b = st.nextId := by simpa using hb
      subst hb'
      exact hwait_lt a ha
    · rw [if_neg hgg] at hl'
      exact hI.waiters_sorted g' slot' hl'
  · intro g' slot' hl'
    rw [hlookup] at hl'
    rw [hrc]
    by_cases hgg : g' = g
    · rw [if_pos hgg] at hl'
      have hs := Option.some.inj hl'
      rw [← hs]
      subst hgg
      exact hI.in_use_eq g' slot hlg
    · rw [if_neg hgg] at hl'
      exact hI.in_use_eq g' slot' hl'
  · intro g' slot' hl'
    rw [hlookup] at hl'
    by_cases hgg : g' = g
    · rw [if_pos hgg] at hl'
      have hs := Option.some.inj hl'
      rw [← hs]
      subst hgg
      exact hI.cap_bound g' slot hlg
    · rw [if_neg hgg] at hl'
      exact hI.cap_bound g' slot' hl'
  · intro t ht hst
    rcases List.mem_cons.mp ht with rfl | ht
    · exact ⟨rfl, rfl, rfl⟩
    · exact hI.pending_clean t ht hst
  · intro t ht hst
    rcases List.mem_cons.mp ht with rfl | ht
    · exact absurd hst (by simp [newTask])
    · exact hI.running_clean t ht hst
  · intro t ht hres
    rcases List.mem_cons.mp ht with rfl | ht
    · exact absurd hres (by simp [newTask])
    · exact hI.result_completed t ht hres
  · intro t ht herr
    rcases List.mem_cons.mp ht with rfl | ht
    · exact absurd herr (by simp [newTask])
    · exact hI.error_failed t ht herr
  · intro t ht hstart slot' hl' w hw
    rcases List.mem_cons.mp ht with rfl | ht
    · exact absurd hstart (by simp [newTask])
    · rw [hlookup] at hl'
      by_cases hgg : t.group_id = g
      · rw [if_pos hgg] at hl'
        have hs := Option.some.inj hl'
        rw [← hs] at hw
        rcases List.mem_append.mp hw with hold | hnew
        · exact hI.started_fifo t ht hstart slot (hgg ▸ hlg) w hold
        · have : w = st.nextId := by simpa using hnew
          subst this
          exact hI.ids_lt t ht
      · rw [if_neg hgg] at hl'
        exact hI.started_fifo t ht hstart slot' hl' w hw

end TaskMgr

namespace TaskMgr

theorem Inv_submit_new (cap : String → ℕ) (st : MgrState) (g pl : String)
    (hI : Inv cap st) (hlg : lookupGroup st g = none) :
    Inv cap ⟨newTask st.nextId g pl st.clock :: st.tasks, st.nextId + 1,
      (g, { in_use := 0, waiters := [st.nextId] }) :: st.groups, st.clock + 1⟩ := by
  have hkeys : g ∉ st.groups.map Prod.fst := not_mem_keys_of_lookup_none st.groups g hlg
  have hnog : ∀ t ∈ st.tasks, t.group_id ≠ g := by
    intro t ht hc
    exact hI.group_exists t ht (hc ▸ hlg)
  have hlookup : ∀ g', lookupGroup
      (⟨newTask st.nextId g pl st.clock :: st.tasks, st.nextId + 1,
        (g, { in_use := 0, waiters := [st.nextId] }) :: st.groups, st.clock + 1⟩ : MgrState) g'
      = if g' = g then some { in_use := 0, waiters := [st.nextId] }
        else lookupGroup st g' := by
    intro g'
    exact lookup_cons_eq g g' _ st.groups
  have hrcg : runningCount st g = 0 := by
    rw [runningCount, List.countP_eq_zero]
    intro t ht
    simp only [Bool.and_eq_true, beq_iff_eq]
    rintro ⟨hgr, _⟩
    exact hnog t ht hgr
  have hrc : ∀ g', runningCount
      (⟨newTask st.nextId g pl st.clock :: st.tasks, st.nextId + 1,
        (g, { in_use := 0, waiters := [st.nextId] }) :: st.groups, st.clock + 1⟩ : MgrState) g'
      = runningCount st g' := by
    intro g'
    show List.countP _ (newTask st.nextId g pl st.clock :: st.tasks) = _
    rw [List.countP_cons]
    simp [newTask, runningCount]
  constructor
  · intro t ht
    rcases List.mem_cons.mp ht with rfl | ht
    · show st.nextId < st.nextId + 1
      omega
    · have := hI.ids_lt t ht
      show t.id < st.nextId + 1
      omega
  · show ((newTask st.nextId g pl st.clock :: st.tasks).map Task.id).Nodup
    rw [List.map_cons, List.nodup_cons]
    refine ⟨?_, hI.ids_nodup⟩
    intro hmem
    obtain ⟨t, ht, hid⟩ := List.mem_map.mp hmem
    have := hI.ids_lt t ht
    have hN : (newTask st.nextId g pl st.clock).id = st.nextId := rfl
    omega
  · show (((g, ({ in_use := 0, waiters := [st.nextId] } : GroupSlot)) :: st.groups).map
      Prod.fst).Nodup
    rw [List.map_cons, List.nodup_cons]
    exact ⟨hkeys, hI.keys_nodup⟩
  · intro t ht
    rcases List.mem_cons.mp ht with rfl | ht
    · rw [hlookup]
      have : (newTask st.nextId g pl st.clock).group_id = g := rfl
      rw [this, if_pos rfl]
      simp
    · rw [hlookup, if_neg (hnog t ht)]
      exact hI.group_exists t ht
  · intro g' slot' hl' tid htid
    rw [hlookup] at hl'
    by_cases hgg : g' = g
    · rw [if_pos hgg] at hl'
      have hs := Option.some.inj hl'
      rw [← hs] at htid
      have : tid = st.nextId := by simpa using htid
      subst this
      subst hgg
      exact ⟨newTask st.nextId g' pl st.clock, List.mem_cons_self _ _, rfl, rfl, rfl⟩
    · rw [if_neg hgg] at hl'
      obtain ⟨t, ht, hid, hgr, hst⟩ := hI.waiter_pending g' slot' hl' tid htid
      exact ⟨t, List.mem_cons_of_mem _ ht, hid, hgr, hst⟩
  · intro g' slot' hl'
    rw [hlookup] at hl'
    by_cases hgg : g' = g
    · rw [if_pos hgg] at hl'
      have hs := Option.some.inj hl'
      rw [← hs]
      simp
    · rw [if_neg hgg] at hl'
      exact hI.waiters_sorted g' slot' hl'
  · intro g' slot' hl'
    rw [hlookup] at hl'
    rw [hrc]
    by_cases hgg : g' = g
    · rw [if_pos hgg] at hl'
      have hs := Option.some.inj hl'
      rw [← hs]
      subst hgg
      exact hrcg.symm
    · rw [if_neg hgg] at hl'
      exact hI.in_use_eq g' slot' hl'
  · intro g' slot' hl'
    rw [hlookup] at hl'
    by_cases hgg : g' = g
    · rw [if_pos hgg] at hl'
      have hs := Option.some.inj hl'
      rw [← hs]
      exact Nat.zero_le _
    · rw [if_neg hgg] at hl'
      exact hI.cap_bound g' slot' hl'
  · intro t ht hst
    rcases List.mem_cons.mp ht with rfl | ht
    · exact ⟨rfl, rfl, rfl⟩
    · exact hI.pending_clean t ht hst
  · intro t ht hst
    rcases List.mem_cons.mp ht with rfl | ht
    · exact absurd hst (by simp [newTask])
    · exact hI.running_clean t ht hst
  · intro t ht hres
    rcases List.mem_cons.mp ht with rfl | ht
    · exact absurd hres (by simp [newTask])
    · exact hI.result_completed t ht hres
  · intro t ht herr
    rcases List.mem_cons.mp ht with rfl | ht
    · exact absurd herr (by simp [newTask])
    · exact hI.error_failed t ht herr
  · intro t ht hstart slot' hl' w hw
    rcases List.mem_cons.mp ht with rfl | ht
    · exact absurd hstart (by simp [newTask])
    · rw [hlookup, if_neg (hnog t ht)] at hl'
      exact hI.started_fifo t ht hstart slot' hl' w hw

end TaskMgr

namespace TaskMgr

theorem lookupGroup_mk (ts : List Task) (n : ℕ) (gs : List (String × GroupSlot)) (c : ℕ)
    (g' : String) : lookupGroup ⟨ts, n, gs, c⟩ g' = gs.lookup g' := rfl

theorem Inv_submit (cap : String → ℕ) (st : MgrState) (gid p : Option String)
    (hI : Inv cap st) : Inv cap (step cap st (.submit gid p)) := by
  cases gid with
  | none => exact hI
  | some g =>
      cases p with
      | none => exact hI
      | some pl =>
          by_cases hg : g = ""
          · have hred : step cap st (.submit (some g) (some pl)) = st := by
              show (match submit (some g) (some pl) st with
                | .ok (_, st') => st' | .error _ => st) = st
              rw [show submit (some g) (some pl) st = .error .invalidRequest from by
                show (if g = "" then _ else _) = _
                rw [if_pos hg]]
            rw [hred]
            exact hI
          · have hred : step cap st (.submit (some g) (some pl))
                = enqueueWaiter ⟨newTask st.nextId g pl st.clock :: st.tasks,
                    st.nextId + 1, st.groups, st.clock + 1⟩ g st.nextId := by
              show (match submit (some g) (some pl) st with
                | .ok (_, st') => st' | .error _ => st) = _
              rw [show submit (some g) (some pl) st
                  = .ok (st.nextId, enqueueWaiter ⟨newTask st.nextId g pl st.clock :: st.tasks,
                      st.nextId + 1, st.groups, st.clock + 1⟩ g st.nextId) from by
                show (if g = "" then _ else _) = _
                rw [if_neg hg]]
            rw [hred]
            cases hlg : lookupGroup st g with
            | some slot =>
                have he : enqueueWaiter ⟨newTask st.nextId g pl st.clock :: st.tasks,
                    st.nextId + 1, st.groups, st.clock + 1⟩ g st.nextId
                    = updateGroup ⟨newTask st.nextId g pl st.clock :: st.tasks,
                        st.nextId + 1, st.groups, st.clock + 1⟩ g
                        (fun s => { s with waiters := s.waiters ++ [st.nextId] }) := by
                  show (match lookupGroup ⟨newTask st.nextId g pl st.clock :: st.tasks,
                      st.nextId + 1, st.groups, st.clock + 1⟩ g with
                    | some _ => _ | none => _) = _
                  rw [show lookupGroup (⟨newTask st.nextId g pl st.clock :: st.tasks,
                      st.nextId + 1, st.groups, st.clock + 1⟩ : MgrState) g = some slot from hlg]
                rw [he]
                exact Inv_submit_existing cap st g pl slot hI hlg
            | none =>
                have he : enqueueWaiter ⟨newTask st.nextId g pl st.clock :: st.tasks,
                    st.nextId + 1, st.groups, st.clock + 1⟩ g st.nextId
                    = ⟨newTask st.nextId g pl st.clock :: st.tasks, st.nextId + 1,
                        (g, { in_use := 0, waiters := [st.nextId] }) :: st.groups,
                        st.clock + 1⟩ := by
                  show (match lookupGroup ⟨newTask st.nextId g pl st.clock :: st.tasks,
                      st.nextId + 1, st.groups, st.clock + 1⟩ g with
                    | some _ => _ | none => _) = _
                  rw [show lookupGroup (⟨newTask st.nextId g pl st.clock :: st.tasks,
                      st.nextId + 1, st.groups, st.clock + 1⟩ : MgrState) g = none from hlg]
                rw [he]
                exact Inv_submit_new cap st g pl hI hlg

end TaskMgr

namespace TaskMgr

theorem findTask_updateGroup (st : MgrState) (g : String) (f : GroupSlot → GroupSlot)
    (tid : ℕ) : findTask (updateGroup st g f) tid = findTask st tid := rfl

theorem Inv_grant_aux (cap : String → ℕ) (st : MgrState) (g : String) (slot : GroupSlot)
    (h : ℕ) (rest : List ℕ) (th : Task) (hI : Inv cap st)
    (hlg : lookupGroup st g = some slot) (hw : slot.waiters = h :: rest)
    (hcap : slot.in_use < cap g) (hth : findTask st h = some th)
    (hthp : th.status = TaskStatus.pending) :
    Inv cap (updateTask
      (updateGroup st g (fun s => { s with in_use := s.in_use + 1, waiters := rest }))
      h (fun t => { t with status := TaskStatus.running, started_at := some st.clock })) := by
  have hnd := hI.ids_nodup
  obtain ⟨hthmem, hthid⟩ := (findTask_eq_some_iff st h th hnd).mp hth
  have hhead : h ∈ slot.waiters := by rw [hw]; exact List.mem_cons_self _ _
  obtain ⟨t0, ht0, ht0id, ht0g, _⟩ := hI.waiter_pending g slot hlg h hhead
  have ht0eq : t0 = th := mem_id_unique hnd ht0 hthmem (by rw [ht0id, hthid])
  have hthg : th.group_id = g := by rw [← ht0eq]; exact ht0g
  have hsort : (h :: rest).Pairwise (· < ·) := hw ▸ hI.waiters_sorted g slot hlg
  have hlt_rest : ∀ w ∈ rest, h < w := (List.pairwise_cons.mp hsort).1
  have hrest_sorted : rest.Pairwise (· < ·) := (List.pairwise_cons.mp hsort).2
  have hf_id : ∀ t : Task, ({ t with status := TaskStatus.running, started_at := some st.clock } : Task).id = t.id := fun _ => rfl
  have hlookup : ∀ g', lookupGroup (updateTask
      (updateGroup st g (fun s => { s with in_use := s.in_use + 1, waiters := rest }))
      h (fun t => { t with status := TaskStatus.running, started_at := some st.clock })) g'
      = if g' = g then some { in_use := slot.in_use + 1, waiters := rest }
        else lookupGroup st g' := by
    intro g'
    show lookupGroup
      (updateGroup st g (fun s => { s with in_use := s.in_use + 1, waiters := rest })) g' = _
    rw [lookupGroup_updateGroup, hlg]
    rfl
  have hfind : ∀ tid, findTask (updateTask
      (updateGroup st g (fun s => { s with in_use := s.in_use + 1, waiters := rest }))
      h (fun t => { t with status := TaskStatus.running, started_at := some st.clock })) tid
      = if tid = h
        then some { th with status := TaskStatus.running, started_at := some st.clock }
        else findTask st tid := by
    intro tid
    rw [findTask_updateTask _ _ _ _ hf_id, findTask_updateGroup, hth]
    rfl
  have hmem : ∀ t' : Task, t' ∈ (updateTask
      (updateGroup st g (fun s => { s with in_use := s.in_use + 1, waiters := rest }))
      h (fun t => { t with status := TaskStatus.running, started_at := some st.clock })).tasks ↔
      ∃ t ∈ st.tasks, t' = if t.id = h
        then { t with status := TaskStatus.running, started_at := some st.clock } else t := by
    intro t'
    exact mem_updateTask _ _ _ t'
  have hcount : ∀ g', (List.countP
        (fun t => t.group_id == g' && t.status == TaskStatus.running)
        (st.tasks.map (fun t => if t.id = h
          then { t with status := TaskStatus.running, started_at := some st.clock } else t)))
        + (if (th.group_id == g' && th.status == TaskStatus.running) then 1 else 0)
      = runningCount st g' + (if (th.group_id == g' && TaskStatus.running == TaskStatus.running)
          then 1 else 0) := by
    intro g'
    exact countP_map_update st.tasks h _ _ hnd th hthmem hthid
  have hrc_g : runningCount (updateTask
      (updateGroup st g (fun s => { s with in_use := s.in_use + 1, waiters := rest }))
      h (fun t => { t with status := TaskStatus.running, started_at := some st.clock })) g
      = runningCount st g + 1 := by
    have hkey := hcount g
    rw [hthp, hthg] at hkey
    rw [show (TaskStatus.pending == TaskStatus.running) = false from rfl, Bool.and_false,
      show (TaskStatus.running == TaskStatus.running) = true from rfl, Bool.and_true,
      beq_self_eq_true, if_neg Bool.false_ne_true, if_pos rfl, add_zero] at hkey
    exact hkey
  have hrc_ne : ∀ g', g' ≠ g → runningCount (updateTask
      (updateGroup st g (fun s => { s with in_use := s.in_use + 1, waiters := rest }))
      h (fun t => { t with status := TaskStatus.running, started_at := some st.clock })) g'
      = runningCount st g' := by
    intro g' hgg
    have hkey := hcount g'
    rw [hthp, hthg] at hkey
    have hgb : (g == g') = false := beq_eq_false_iff_ne.mpr (fun hc => hgg hc.symm)
    rw [show (TaskStatus.pending == TaskStatus.running) = false from rfl, Bool.and_false,
      show (TaskStatus.running == TaskStatus.running) = true from rfl, Bool.and_true,
      hgb, if_neg Bool.false_ne_true, add_zero, add_zero] at hkey
    exact hkey
  constructor
  · intro t' ht'
    obtain ⟨t, ht, rfl⟩ := (hmem _).mp ht'
    show _ < st.nextId
    by_cases hid : t.id = h
    · rw [if_pos hid]
      exact hI.ids_lt t ht
    · rw [if_neg hid]
      exact hI.ids_lt t ht
  · show ((updateTask _ _ _).tasks.map Task.id).Nodup
    rw [ids_updateTask _ _ _ hf_id]
    exact hI.ids_nodup
  · rw [updateTask_groups, keys_updateGroup]
    exact hI.keys_nodup
  · intro t' ht'
    obtain ⟨t, ht, rfl⟩ := (hmem _).mp ht'
    rw [hlookup]
    have hgrp : (if t.id = h
        then { t with status := TaskStatus.running, started_at := some st.clock }
        else t).group_id = t.group_id := by
      by_cases hid : t.id = h <;> simp [hid]
    rw [hgrp]
    by_cases hgg : t.group_id = g
    · rw [if_pos hgg]; simp
    · rw [if_neg hgg]; exact hI.group_exists t ht
  · intro g' slot' hl' tid htid
    rw [hlookup] at hl'
    by_cases hgg : g' = g
    · rw [if_pos hgg] at hl'
      have hs := Option.some.inj hl'
      rw [← hs] at htid
      have htid_rest : tid ∈ rest := htid
      have htid_ne : tid ≠ h := fun hc => absurd (hlt_rest tid htid_rest)
        (by rw [hc]; exact lt_irrefl h)
      obtain ⟨t, ht, hid, hgr, hpend⟩ := hI.waiter_pending g slot hlg tid
        (by rw [hw]; exact List.mem_cons_of_mem _ htid_rest)
      refine ⟨t, (hmem t).mpr ⟨t, ht, ?_⟩, hid, hgg ▸ hgr, hpend⟩
      rw [if_neg (by rw [hid]; exact htid_ne)]
    · rw [if_neg hgg] at hl'
      obtain ⟨t, ht, hid, hgr, hpend⟩ := hI.waiter_pending g' slot' hl' tid htid
      have htne : t.id ≠ h := by
        intro hc
        have : t = th := mem_id_unique hnd ht hthmem (by rw [hc, hthid])
        rw [this] at hgr
        exact hgg (hgr ▸ hthg ▸ rfl : g' = g)
      refine ⟨t, (hmem t).mpr ⟨t, ht, ?_⟩, hid, hgr, hpend⟩
      rw [if_neg htne]
  · intro g' slot' hl'
    rw [hlookup] at hl'
    by_cases hgg : g' = g
    · rw [if_pos hgg] at hl'
      have hs := Option.some.inj hl'
      rw [← hs]
      exact hrest_sorted
    · rw [if_neg hgg] at hl'
      exact hI.waiters_sorted g' slot' hl'
  · intro g' slot' hl'
    rw [hlookup] at hl'
    by_cases hgg : g' = g
    · rw [if_pos hgg] at hl'
      have hs := Option.some.inj hl'
      rw [← hs]
      subst hgg
      rw [hrc_g]
      have := hI.in_use_eq g' slot hlg
      show slot.in_use + 1 = _
      omega
    · rw [if_neg hgg] at hl'
      rw [hrc_ne g' hgg]
      exact hI.in_use_eq g' slot' hl'
  · intro g' slot' hl'
    rw [hlookup] at hl'
    by_cases hgg : g' = g
    · rw [if_pos hgg] at hl'
      have hs := Option.some.inj hl'
      rw [← hs]
      subst hgg
      show slot.in_use + 1 ≤ cap g'
      omega
    · rw [if_neg hgg] at hl'
      exact hI.cap_bound g' slot' hl'
  · intro t' ht' hpend
    obtain ⟨t, ht, rfl⟩ := (hmem _).mp ht'
    by_cases hid : t.id = h
    · rw [if_pos hid] at hpend ⊢
      exact absurd hpend (by simp)
    · rw [if_neg hid] at hpend ⊢
      exact hI.pending_clean t ht hpend
  · intro t' ht' hrun
    obtain ⟨t, ht, rfl⟩ := (hmem _).mp ht'
    by_cases hid : t.id = h
    · rw [if_pos hid]
      have hteq : t = th := mem_id_unique hnd ht hthmem (by rw [hid, hthid])
      subst hteq
      have := hI.pending_clean t ht hthp
      exact ⟨this.2.1, this.2.2⟩
    · rw [if_neg hid] at hrun ⊢
      exact hI.running_clean t ht hrun
  · intro t' ht' hres
    obtain ⟨t, ht, rfl⟩ := (hmem _).mp ht'
    by_cases hid : t.id = h
    · rw [if_pos hid] at hres
      have hteq : t = th := mem_id_unique hnd ht hthmem (by rw [hid, hthid])
      subst hteq
      have := hI.pending_clean t ht hthp
      exact absurd hres (by simp [this.2.1])
    · rw [if_neg hid] at hres ⊢
      exact hI.result_completed t ht hres
  · intro t' ht' herr
    obtain ⟨t, ht, rfl⟩ := (hmem _).mp ht'
    by_cases hid : t.id = h
    · rw [if_pos hid] at herr
      have hteq : t = th := mem_id_unique hnd ht hthmem (by rw [hid, hthid])
      subst hteq
      have := hI.pending_clean t ht hthp
      exact absurd herr (by simp [this.2.2])
    · rw [if_neg hid] at herr ⊢
      exact hI.error_failed t ht herr
  · intro t' ht' hstart slot' hl' w hww
    obtain ⟨t, ht, rfl⟩ := (hmem _).mp ht'
    by_cases hid : t.id = h
    · rw [if_pos hid] at hstart hl' ⊢
      have hteq : t = th := mem_id_unique hnd ht hthmem (by rw [hid, hthid])
      subst hteq
      show t.id < w
      rw [hlookup] at hl'
      have hgr : ({ t with status := TaskStatus.running, started_at := some st.clock } : Task).group_id = g := hthg
      rw [hgr, if_pos rfl] at hl'
      have hs := Option.some.inj hl'
      rw [← hs] at hww
      have : w ∈ rest := hww
      rw [hid]
      exact hlt_rest w this
    · rw [if_neg hid] at hstart hl' ⊢
      rw [hlookup] at hl'
      by_cases hgg : t.group_id = g
      · rw [if_pos hgg] at hl'
        have hs := Option.some.inj hl'
        rw [← hs] at hww
        have hwrest : w ∈ rest := hww
        exact hI.started_fifo t ht hstart slot (hgg ▸ hlg) w
          (by rw [hw]; exact List.mem_cons_of_mem _ hwrest)
      · rw [if_neg hgg] at hl'
        exact hI.started_fifo t ht hstart slot' hl' w hww

end TaskMgr

namespace TaskMgr

theorem Inv_terminate_aux (cap : String → ℕ) (st : MgrState) (tid : ℕ) (t0 : Task)
    (f : Task → Task) (hI : Inv cap st)
    (hfind : findTask st tid = some t0) (ht0r : t0.status = TaskStatus.running)
    (hf_id : ∀ u, (f u).id = u.id) (hf_group : ∀ u, (f u).group_id = u.group_id)
    (hf_started : ∀ u, (f u).started_at = u.started_at)
    (hterm_p : (f t0).status ≠ TaskStatus.pending)
    (hterm_r : (f t0).status ≠ TaskStatus.running)
    (hres : (f t0).result ≠ none → (f t0).status = TaskStatus.completed)
    (herr : (f t0).error ≠ none → (f t0).status = TaskStatus.failed) :
    Inv cap (updateTask (releasePermit st t0.group_id) tid f) := by
  have hnd := hI.ids_nodup
  obtain ⟨ht0mem, ht0id⟩ := (findTask_eq_some_iff st tid t0 hnd).mp hfind
  obtain ⟨slot0, hlg0⟩ : ∃ s, lookupGroup st t0.group_id = some s := by
    cases hl : lookupGroup st t0.group_id with
    | none => exact absurd hl (hI.group_exists t0 ht0mem)
    | some s => exact ⟨s, rfl⟩
  have hlookup : ∀ g', lookupGroup (updateTask (releasePermit st t0.group_id) tid f) g'
      = if g' = t0.group_id
        then some { in_use := slot0.in_use - 1, waiters := slot0.waiters }
        else lookupGroup st g' := by
    intro g'
    show lookupGroup (releasePermit st t0.group_id) g' = _
    rw [releasePermit, lookupGroup_updateGroup, hlg0]
    rfl
  have hfind' : ∀ tid', findTask (updateTask (releasePermit st t0.group_id) tid f) tid'
      = if tid' = tid then some (f t0) else findTask st tid' := by
    intro tid'
    rw [findTask_updateTask _ _ _ _ hf_id]
    show (if tid' = tid then (findTask st tid).map f else findTask st tid') = _
    rw [hfind]
    rfl
  have hmem : ∀ t' : Task, t' ∈ (updateTask (releasePermit st t0.group_id) tid f).tasks ↔
      ∃ t ∈ st.tasks, t' = if t.id = tid then f t else t := by
    intro t'
    exact mem_updateTask _ _ _ t'
  have hne_run : ((f t0).status == TaskStatus.running) = false :=
    beq_eq_false_iff_ne.mpr hterm_r
  have hcount : ∀ g', (List.countP
        (fun t => t.group_id == g' && t.status == TaskStatus.running)
        (st.tasks.map (fun t => if t.id = tid then f t else t)))
        + (if (t0.group_id == g' && t0.status == TaskStatus.running) then 1 else 0)
      = runningCount st g'
        + (if ((f t0).group_id == g' && (f t0).status == TaskStatus.running)
            then 1 else 0) := by
    intro g'
    exact countP_map_update st.tasks tid f _ hnd t0 ht0mem ht0id
  have hrc_g0 : runningCount (updateTask (releasePermit st t0.group_id) tid f) t0.group_id + 1
      = runningCount st t0.group_id := by
    have hkey := hcount t0.group_id
    rw [ht0r, hf_group, hne_run, beq_self_eq_true, Bool.and_false,
      show (TaskStatus.running == TaskStatus.running) = true from rfl, Bool.and_true,
      if_pos rfl, if_neg Bool.false_ne_true, add_zero] at hkey
    exact hkey
  have hrc_ne : ∀ g', g' ≠ t0.group_id →
      runningCount (updateTask (releasePermit st t0.group_id) tid f) g'
      = runningCount st g' := by
    intro g' hgg
    have hkey := hcount g'
    have hgb : (t0.group_id == g') = false :=
      beq_eq_false_iff_ne.mpr (fun hc => hgg hc.symm)
    rw [ht0r, hf_group, hne_run, hgb, Bool.false_and, Bool.and_false,
      if_neg Bool.false_ne_true, add_zero, add_zero] at hkey
    exact hkey
  have hpos : 1 ≤ runningCount st t0.group_id := by
    rw [runningCount]
    rw [Nat.succ_le_iff]
    rw [List.countP_pos_iff]
    exact ⟨t0, ht0mem, by rw [ht0r]; simp⟩
  have hslot0 : slot0.in_use = runningCount st t0.group_id := hI.in_use_eq _ slot0 hlg0
  constructor
  · intro t' ht'
    obtain ⟨t, ht, rfl⟩ := (hmem _).mp ht'
    show _ < st.nextId
    by_cases hid : t.id = tid
    · rw [if_pos hid, hf_id]
      exact hI.ids_lt t ht
    · rw [if_neg hid]
      exact hI.ids_lt t ht
  · show ((updateTask _ _ _).tasks.map Task.id).Nodup
    rw [ids_updateTask _ _ _ hf_id]
    exact hI.ids_nodup
  · show ((releasePermit st t0.group_id).groups.map Prod.fst).Nodup
    rw [releasePermit, keys_updateGroup]
    exact hI.keys_nodup
  · intro t' ht'
    obtain ⟨t, ht, rfl⟩ := (hmem _).mp ht'
    rw [hlookup]
    have hgrp : (if t.id = tid then f t else t).group_id = t.group_id := by
      by_cases hid : t.id = tid <;> simp [hid, hf_group]
    rw [hgrp]
    by_cases hgg : t.group_id = t0.group_id
    · rw [if_pos hgg]; simp
    · rw [if_neg hgg]; exact hI.group_exists t ht
  · intro g' slot' hl' tid' htid'
    rw [hlookup] at hl'
    have hwp : ∀ s, lookupGroup st g' = some s → tid' ∈ s.waiters →
        ∃ t ∈ (updateTask (releasePermit st t0.group_id) tid f).tasks,
          t.id = tid' ∧ t.group_id = g' ∧ t.status = TaskStatus.pending := by
      intro s hs hmem'
      obtain ⟨t, ht, hid, hgr, hpend⟩ := hI.waiter_pending g' s hs tid' hmem'
      have htne : t.id ≠ tid := by
        intro hc
        have : t = t0 := mem_id_unique hnd ht ht0mem (by rw [hc, ht0id])
        rw [this] at hpend
        rw [ht0r] at hpend
        cases hpend
      refine ⟨t, (hmem t).mpr ⟨t, ht, ?_⟩, hid, hgr, hpend⟩
      rw [if_neg htne]
    by_cases hgg : g' = t0.group_id
    · rw [if_pos hgg] at hl'
      have hs := Option.some.inj hl'
      have hw' : tid' ∈ slot0.waiters := by
        rw [← hs] at htid'
        exact htid'
      exact hwp slot0 (hgg ▸ hlg0) hw'
    · rw [if_neg hgg] at hl'
      exact hwp slot' hl' htid'
  · intro g' slot' hl'
    rw [hlookup] at hl'
    by_cases hgg : g' = t0.group_id
    · rw [if_pos hgg] at hl'
      have hs := Option.some.inj hl'
      rw [← hs]
      exact hI.waiters_sorted _ slot0 (hgg ▸ hlg0)
    · rw [if_neg hgg] at hl'
      exact hI.waiters_sorted g' slot' hl'
  · intro g' slot' hl'
    rw [hlookup] at hl'
    by_cases hgg : g' = t0.group_id
    · rw [if_pos hgg] at hl'
      have hs := Option.some.inj hl'
      rw [← hs]
      subst hgg
      have h1 := hrc_g0
      show slot0.in_use - 1 = _
      omega
    · rw [if_neg hgg] at hl'
      rw [hrc_ne g' hgg]
      exact hI.in_use_eq g' slot' hl'
  · intro g' slot' hl'
    rw [hlookup] at hl'
    by_cases hgg : g' = t0.group_id
    · rw [if_pos hgg] at hl'
      have hs := Option.some.inj hl'
      rw [← hs]
      subst hgg
      have := hI.cap_bound _ slot0 hlg0
      show slot0.in_use - 1 ≤ cap t0.group_id
      omega
    · rw [if_neg hgg] at hl'
      exact hI.cap_bound g' slot' hl'
  · intro t' ht' hpend
    obtain ⟨t, ht, rfl⟩ := (hmem _).mp ht'
    by_cases hid : t.id = tid
    · rw [if_pos hid] at hpend ⊢
      have hteq : t = t0 := mem_id_unique hnd ht ht0mem (by rw [hid, ht0id])
      rw [hteq] at hpend
      exact absurd hpend hterm_p
    · rw [if_neg hid] at hpend ⊢
      exact hI.pending_clean t ht hpend
  · intro t' ht' hrun
    obtain ⟨t, ht, rfl⟩ := (hmem _).mp ht'
    by_cases hid : t.id = tid
    · rw [if_pos hid] at hrun
      have hteq : t = t0 := mem_id_unique hnd ht ht0mem (by rw [hid, ht0id])
      rw [hteq] at hrun
      exact absurd hrun hterm_r
    · rw [if_neg hid] at hrun ⊢
      exact hI.running_clean t ht hrun
  · intro t' ht' hresult
    obtain ⟨t, ht, rfl⟩ := (hmem _).mp ht'
    by_cases hid : t.id = tid
    · rw [if_pos hid] at hresult ⊢
      have hteq : t = t0 := mem_id_unique hnd ht ht0mem (by rw [hid, ht0id])
      rw [hteq] at hresult ⊢
      exact hres hresult
    · rw [if_neg hid] at hresult ⊢
      exact hI.result_completed t ht hresult
  · intro t' ht' herror
    obtain ⟨t, ht, rfl⟩ := (hmem _).mp ht'
    by_cases hid : t.id = tid
    · rw [if_pos hid] at herror ⊢
      have hteq : t = t0 := mem_id_unique hnd ht ht0mem (by rw [hid, ht0id])
      rw [hteq] at herror ⊢
      exact herr herror
    · rw [if_neg hid] at herror ⊢
      exact hI.error_failed t ht herror
  · intro t' ht' hstart slot' hl' w hww
    obtain ⟨t, ht, rfl⟩ := (hmem _).mp ht'
    by_cases hid : t.id = tid
    · rw [if_pos hid] at hstart hl' ⊢
      have hteq : t = t0 := mem_id_unique hnd ht ht0mem (by rw [hid, ht0id])
      rw [hf_started] at hstart
      rw [hlookup, hf_group] at hl'
      rw [hteq] at hstart hl' ⊢
      rw [if_pos rfl] at hl'
      have hs := Option.some.inj hl'
      rw [← hs] at hww
      have hw0 : w ∈ slot0.waiters := hww
      show (f t0).id < w
      rw [hf_id, ht0id]
      have := hI.started_fifo t0 ht0mem hstart slot0 hlg0 w hw0
      rw [ht0id] at this
      exact this
    · rw [if_neg hid] at hstart hl' ⊢
      rw [hlookup] at hl'
      by_cases hgg : t.group_id = t0.group_id
      · rw [if_pos hgg] at hl'
        have hs := Option.some.inj hl'
        rw [← hs] at hww
        have hw0 : w ∈ slot0.waiters := hww
        exact hI.started_fifo t ht hstart slot0 (hgg ▸ hlg0) w hw0
      · rw [if_neg hgg] at hl'
        exact hI.started_fifo t ht hstart slot' hl' w hww

end TaskMgr

namespace TaskMgr

theorem Inv_flag_aux (cap : String → ℕ) (st : MgrState) (tid : ℕ) (f : Task → Task)
    (hI : Inv cap st)
    (hf_id : ∀ u, (f u).id = u.id) (hf_group : ∀ u, (f u).group_id = u.group_id)
    (hf_status : ∀ u, (f u).status = u.status)
    (hf_started : ∀ u, (f u).started_at = u.started_at)
    (hf_result : ∀ u, (f u).result = u.result) (hf_error : ∀ u, (f u).error = u.error) :
    Inv cap (updateTask st tid f) := by
  have hnd := hI.ids_nodup
  have hlookup : ∀ g', lookupGroup (updateTask st tid f) g' = lookupGroup st g' :=
    fun _ => rfl
  have hmem : ∀ t' : Task, t' ∈ (updateTask st tid f).tasks ↔
      ∃ t ∈ st.tasks, t' = if t.id = tid then f t else t := by
    intro t'
    exact mem_updateTask _ _ _ t'
  have hrc : ∀ g', runningCount (updateTask st tid f) g' = runningCount st g' := by
    intro g'
    show List.countP _ (st.tasks.map _) = _
    rw [runningCount, List.countP_map]
    apply List.countP_congr
    intro t ht
    show ((if t.id = tid then f t else t).group_id == g'
        && (if t.id = tid then f t else t).status == TaskStatus.running) = true
      ↔ (t.group_id == g' && t.status == TaskStatus.running) = true
    by_cases hid : t.id = tid <;> simp [hid, hf_group, hf_status]
  constructor
  · intro t' ht'
    obtain ⟨t, ht, rfl⟩ := (hmem _).mp ht'
    show _ < st.nextId
    by_cases hid : t.id = tid
    · rw [if_pos hid, hf_id]
      exact hI.ids_lt t ht
    · rw [if_neg hid]
      exact hI.ids_lt t ht
  · show ((updateTask _ _ _).tasks.map Task.id).Nodup
    rw [ids_updateTask _ _ _ hf_id]
    exact hI.ids_nodup
  · exact hI.keys_nodup
  · intro t' ht'
    obtain ⟨t, ht, rfl⟩ := (hmem _).mp ht'
    rw [hlookup]
    have hgrp : (if t.id = tid then f t else t).group_id = t.group_id := by
      by_cases hid : t.id = tid <;> simp [hid, hf_group]
    rw [hgrp]
    exact hI.group_exists t ht
  · intro g' slot' hl' tid' htid'
    rw [hlookup] at hl'
    obtain ⟨t, ht, hid, hgr, hpend⟩ := hI.waiter_pending g' slot' hl' tid' htid'
    refine ⟨if t.id = tid then f t else t, (hmem _).mpr ⟨t, ht, rfl⟩, ?_, ?_, ?_⟩
    · by_cases h : t.id = tid
      · rw [if_pos h, hf_id]
        exact hid
      · rw [if_neg h]
        exact hid
    · by_cases h : t.id = tid
      · rw [if_pos h, hf_group]
        exact hgr
      · rw [if_neg h]
        exact hgr
    · by_cases h : t.id = tid
      · rw [if_pos h, hf_status]
        exact hpend
      · rw [if_neg h]
        exact hpend
  · intro g' slot' hl'
    rw [hlookup] at hl'
    exact hI.waiters_sorted g' slot' hl'
  · intro g' slot' hl'
    rw [hlookup] at hl'
    rw [hrc]
    exact hI.in_use_eq g' slot' hl'
  · intro g' slot' hl'
    rw [hlookup] at hl'
    exact hI.cap_bound g' slot' hl'
  · intro t' ht' hpend
    obtain ⟨t, ht, rfl⟩ := (hmem _).mp ht'
    by_cases hid : t.id = tid
    · rw [if_pos hid] at hpend ⊢
      rw [hf_status] at hpend
      have := hI.pending_clean t ht hpend
      rw [hf_started, hf_result, hf_error]
      exact this
    · rw [if_neg hid] at hpend ⊢
      exact hI.pending_clean t ht hpend
  · intro t' ht' hrun
    obtain ⟨t, ht, rfl⟩ := (hmem _).mp ht'
    by_cases hid : t.id = tid
    · rw [if_pos hid] at hrun ⊢
      rw [hf_status] at hrun
      have := hI.running_clean t ht hrun
      rw [hf_result, hf_error]
      exact this
    · rw [if_neg hid] at hrun ⊢
      exact hI.running_clean t ht hrun
  · intro t' ht' hresult
    obtain ⟨t, ht, rfl⟩ := (hmem _).mp ht'
    by_cases hid : t.id = tid
    · rw [if_pos hid] at hresult ⊢
      rw [hf_result] at hresult
      rw [hf_status]
      exact hI.result_completed t ht hresult
    · rw [if_neg hid] at hresult ⊢
      exact hI.result_completed t ht hresult
  · intro t' ht' herror
    obtain ⟨t, ht, rfl⟩ := (hmem _).mp ht'
    by_cases hid : t.id = tid
    · rw [if_pos hid] at herror ⊢
      rw [hf_error] at herror
      rw [hf_status]
      exact hI.error_failed t ht herror
    · rw [if_neg hid] at herror ⊢
      exact hI.error_failed t ht herror
  · intro t' ht' hstart slot' hl' w hww
    obtain ⟨t, ht, rfl⟩ := (hmem _).mp ht'
    rw [hlookup] at hl'
    by_cases hid : t.id = tid
    · rw [if_pos hid] at hstart hl' ⊢
      rw [hf_started] at hstart
      rw [hf_group] at hl'
      rw [hf_id]
      exact hI.started_fifo t ht hstart slot' hl' w hww
    · rw [if_neg hid] at hstart hl' ⊢
      exact hI.started_fifo t ht hstart slot' hl' w hww

end TaskMgr

namespace TaskMgr

theorem Inv_cancel_pending_aux (cap : String → ℕ) (st : MgrState) (tid : ℕ) (t0 : Task)
    (hI : Inv cap st) (hfind : findTask st tid = some t0)
    (ht0p : t0.status = TaskStatus.pending) :
    Inv cap (updateTask (removeWaiter st t0.group_id tid) tid
      (fun u => { u with status := TaskStatus.cancelled, finished_at := some st.clock, cancel_requested := true })) := by
  have hnd := hI.ids_nodup
  obtain ⟨ht0mem, ht0id⟩ := (findTask_eq_some_iff st tid t0 hnd).mp hfind
  have hclean := hI.pending_clean t0 ht0mem ht0p
  obtain ⟨slot0, hlg0⟩ : ∃ s, lookupGroup st t0.group_id = some s := by
    cases hl : lookupGroup st t0.group_id with
    | none => exact absurd hl (hI.group_exists t0 ht0mem)
    | some s => exact ⟨s, rfl⟩
  have hf_id : ∀ u : Task, ({ u with status := TaskStatus.cancelled, finished_at := some st.clock, cancel_requested := true } : Task).id = u.id := fun _ => rfl
  have hlookup : ∀ g', lookupGroup (updateTask (removeWaiter st t0.group_id tid) tid
      (fun u => { u with status := TaskStatus.cancelled, finished_at := some st.clock, cancel_requested := true })) g'
      = if g' = t0.group_id
        then some { in_use := slot0.in_use, waiters := slot0.waiters.filter (fun w => w != tid) }
        else lookupGroup st g' := by
    intro g'
    show lookupGroup (removeWaiter st t0.group_id tid) g' = _
    rw [removeWaiter, lookupGroup_updateGroup, hlg0]
    rfl
  have hmem : ∀ t' : Task, t' ∈ (updateTask (removeWaiter st t0.group_id tid) tid
      (fun u => { u with status := TaskStatus.cancelled, finished_at := some st.clock, cancel_requested := true })).tasks ↔
      ∃ t ∈ st.tasks, t' = if t.id = tid
        then { t with status := TaskStatus.cancelled, finished_at := some st.clock, cancel_requested := true } else t := by
    intro t'
    exact mem_updateTask _ _ _ t'
  have hcount := countP_map_update st.tasks tid
    (fun u => { u with status := TaskStatus.cancelled, finished_at := some st.clock, cancel_requested := true })
  have hrc : ∀ g', runningCount (updateTask (removeWaiter st t0.group_id tid) tid
      (fun u => { u with status := TaskStatus.cancelled, finished_at := some st.clock, cancel_requested := true })) g'
      = runningCount st g' := by
    intro g'
    have hkey := hcount (fun t => t.group_id == g' && t.status == TaskStatus.running)
      hnd t0 ht0mem ht0id
    beta_reduce at hkey
    rw [ht0p,
      show (TaskStatus.pending == TaskStatus.running) = false from rfl, Bool.and_false,
      show (({ t0 with status := TaskStatus.cancelled, finished_at := some st.clock, cancel_requested := true } : Task).status == TaskStatus.running) = false from rfl,
      Bool.and_false, if_neg Bool.false_ne_true, add_zero, add_zero] at hkey
    exact hkey
  constructor
  · intro t' ht'
    obtain ⟨t, ht, rfl⟩ := (hmem _).mp ht'
    show _ < st.nextId
    by_cases hid : t.id = tid
    · rw [if_pos hid]
      exact hI.ids_lt t ht
    · rw [if_neg hid]
      exact hI.ids_lt t ht
  · show ((updateTask _ _ _).tasks.map Task.id).Nodup
    rw [ids_updateTask _ _ _ hf_id]
    exact hI.ids_nodup
  · show ((removeWaiter st t0.group_id tid).groups.map Prod.fst).Nodup
    rw [removeWaiter, keys_updateGroup]
    exact hI.keys_nodup
  · intro t' ht'
    obtain ⟨t, ht, rfl⟩ := (hmem _).mp ht'
    rw [hlookup]
    have hgrp : (if t.id = tid
        then { t with status := TaskStatus.cancelled, finished_at := some st.clock, cancel_requested := true } else t).group_id = t.group_id := by
      by_cases hid : t.id = tid <;> simp [hid]
    rw [hgrp]
    by_cases hgg : t.group_id = t0.group_id
    · rw [if_pos hgg]; simp
    · rw [if_neg hgg]; exact hI.group_exists t ht
  · intro g' slot' hl' tid' htid'
    rw [hlookup] at hl'
    by_cases hgg : g' = t0.group_id
    · rw [if_pos hgg] at hl'
      have hs := Option.some.inj hl'
      rw [← hs] at htid'
      have hfmem := List.mem_filter.mp htid'
      have htidne : tid' ≠ tid := by
        have := hfmem.2
        simpa using this
      obtain ⟨t, ht, hid, hgr, hpend⟩ :=
        hI.waiter_pending _ slot0 (hgg ▸ hlg0) tid' hfmem.1
      refine ⟨t, (hmem t).mpr ⟨t, ht, ?_⟩, hid, hgg ▸ hgr, hpend⟩
      rw [if_neg (by rw [hid]; exact htidne)]
    · rw [if_neg hgg] at hl'
      obtain ⟨t, ht, hid, hgr, hpend⟩ := hI.waiter_pending g' slot' hl' tid' htid'
      have htne : t.id ≠ tid := by
        intro hc
        have : t = t0 := mem_id_unique hnd ht ht0mem (by rw [hc, ht0id])
        rw [this] at hgr
        exact hgg hgr.symm
      refine ⟨t, (hmem t).mpr ⟨t, ht, ?_⟩, hid, hgr, hpend⟩
      rw [if_neg htne]
  · intro g' slot' hl'
    rw [hlookup] at hl'
    by_cases hgg : g' = t0.group_id
    · rw [if_pos hgg] at hl'
      have hs := Option.some.inj hl'
      rw [← hs]
      show (slot0.waiters.filter (fun w => w != tid)).Pairwise (· < ·)
      exact List.Pairwise.sublist (List.filter_sublist _)
        (hI.waiters_sorted _ slot0 (hgg ▸ hlg0))
    · rw [if_neg hgg] at hl'
      exact hI.waiters_sorted g' slot' hl'
  · intro g' slot' hl'
    rw [hlookup] at hl'
    rw [hrc]
    by_cases hgg : g' = t0.group_id
    · rw [if_pos hgg] at hl'
      have hs := Option.some.inj hl'
      rw [← hs]
      subst hgg
      exact hI.in_use_eq _ slot0 hlg0
    · rw [if_neg hgg] at hl'
      exact hI.in_use_eq g' slot' hl'
  · intro g' slot' hl'
    rw [hlookup] at hl'
    by_cases hgg : g' = t0.group_id
    · rw [if_pos hgg] at hl'
      have hs := Option.some.inj hl'
      rw [← hs]
      subst hgg
      exact hI.cap_bound _ slot0 hlg0
    · rw [if_neg hgg] at hl'
      exact hI.cap_bound g' slot' hl'
  · intro t' ht' hpend
    obtain ⟨t, ht, rfl⟩ := (hmem _).mp ht'
    by_cases hid : t.id = tid
    · rw [if_pos hid] at hpend
      exact absurd hpend (by simp)
    · rw [if_neg hid] at hpend ⊢
      exact hI.pending_clean t ht hpend
  · intro t' ht' hrun
    obtain ⟨t, ht, rfl⟩ := (hmem _).mp ht'
    by_cases hid : t.id = tid
    · rw [if_pos hid] at hrun
      exact absurd hrun (by simp)
    · rw [if_neg hid] at hrun ⊢
      exact hI.running_clean t ht hrun
  · intro t' ht' hresult
    obtain ⟨t, ht, rfl⟩ := (hmem _).mp ht'
    by_cases hid : t.id = tid
    · rw [if_pos hid] at hresult ⊢
      have hteq : t = t0 := mem_id_unique hnd ht ht0mem (by rw [hid, ht0id])
      rw [hteq] at hresult
      exact absurd hresult (by simp [hclean.2.1])
    · rw [if_neg hid] at hresult ⊢
      exact hI.result_completed t ht hresult
  · intro t' ht' herror
    obtain ⟨t, ht, rfl⟩ := (hmem _).mp ht'
    by_cases hid : t.id = tid
    · rw [if_pos hid] at herror ⊢
      have hteq : t = t0 := mem_id_unique hnd ht ht0mem (by rw [hid, ht0id])
      rw [hteq] at herror
      exact absurd herror (by simp [hclean.2.2])
    · rw [if_neg hid] at herror ⊢
      exact hI.error_failed t ht herror
  · intro t' ht' hstart slot' hl' w hww
    obtain ⟨t, ht, rfl⟩ := (hmem _).mp ht'
    by_cases hid : t.id = tid
    · rw [if_pos hid] at hstart
      have hteq : t = t0 := mem_id_unique hnd ht ht0mem (by rw [hid, ht0id])
      rw [hteq] at hstart
      have hcontra : t0.started_at ≠ none := hstart
      rw [hclean.1] at hcontra
      exact absurd rfl hcontra
    · rw [if_neg hid] at hstart hl' ⊢
      rw [hlookup] at hl'
      by_cases hgg : t.group_id = t0.group_id
      · rw [if_pos hgg] at hl'
        have hs := Option.some.inj hl'
        rw [← hs] at hww
        have hw0 : w ∈ slot0.waiters := (List.mem_filter.mp hww).1
        exact hI.started_fifo t ht hstart slot0 (hgg ▸ hlg0) w hw0
      · rw [if_neg hgg] at hl'
        exact hI.started_fifo t ht hstart slot' hl' w hww

end TaskMgr

namespace TaskMgr

theorem Inv_finishOk (cap : String → ℕ) (st : MgrState) (tid : ℕ) (r : String)
    (hI : Inv cap st) : Inv cap (step cap st (.finishOk tid r)) := by
  show Inv cap (finishOk tid r st)
  unfold finishOk
  split
  · exact hI
  · rename_i t0 hfind
    by_cases hrun : t0.status = TaskStatus.running
    · rw [if_pos hrun]
      have hmem0 := ((findTask_eq_some_iff st tid t0 hI.ids_nodup).mp hfind).1
      have hclean := hI.running_clean t0 hmem0 hrun
      by_cases hcreq : t0.cancel_requested = true
      · rw [if_pos hcreq]
        exact Inv_terminate_aux cap st tid t0 _ hI hfind hrun
          (fun _ => rfl) (fun _ => rfl) (fun _ => rfl)
          (by simp) (by simp)
          (by intro hc; exact absurd hclean.1 (by simpa using hc))
          (by intro hc; exact absurd hclean.2 (by simpa using hc))
      · rw [if_neg hcreq]
        exact Inv_terminate_aux cap st tid t0 _ hI hfind hrun
          (fun _ => rfl) (fun _ => rfl) (fun _ => rfl)
          (by simp) (by simp)
          (fun _ => rfl)
          (by intro hc; exact absurd hclean.2 (by simpa using hc))
    · rw [if_neg hrun]
      exact hI

theorem Inv_finishErr (cap : String → ℕ) (st : MgrState) (tid : ℕ) (e : String)
    (hI : Inv cap st) : Inv cap (step cap st (.finishErr tid e)) := by
  show Inv cap (finishErr tid e st)
  unfold finishErr
  split
  · exact hI
  · rename_i t0 hfind
    by_cases hrun : t0.status = TaskStatus.running
    · rw [if_pos hrun]
      have hmem0 := ((findTask_eq_some_iff st tid t0 hI.ids_nodup).mp hfind).1
      have hclean := hI.running_clean t0 hmem0 hrun
      exact Inv_terminate_aux cap st tid t0 _ hI hfind hrun
        (fun _ => rfl) (fun _ => rfl) (fun _ => rfl)
        (by simp) (by simp)
        (by intro hc; exact absurd hclean.1 (by simpa using hc))
        (fun _ => rfl)
    · rw [if_neg hrun]
      exact hI

theorem Inv_checkpointCancel (cap : String → ℕ) (st : MgrState) (tid : ℕ)
    (hI : Inv cap st) : Inv cap (step cap st (.checkpointCancel tid)) := by
  show Inv cap (checkpointCancel tid st)
  unfold checkpointCancel
  split
  · exact hI
  · rename_i t0 hfind
    by_cases hrun : t0.status = TaskStatus.running
    · rw [if_pos hrun]
      have hmem0 := ((findTask_eq_some_iff st tid t0 hI.ids_nodup).mp hfind).1
      have hclean := hI.running_clean t0 hmem0 hrun
      by_cases hcreq : t0.cancel_requested = true
      · rw [if_pos hcreq]
        exact Inv_terminate_aux cap st tid t0 _ hI hfind hrun
          (fun _ => rfl) (fun _ => rfl) (fun _ => rfl)
          (by simp) (by simp)
          (by intro hc; exact absurd hclean.1 (by simpa using hc))
          (by intro hc; exact absurd hclean.2 (by simpa using hc))
      · rw [if_neg hcreq]
        exact hI
    · rw [if_neg hrun]
      exact hI

theorem Inv_cancel (cap : String → ℕ) (st : MgrState) (tid : ℕ)
    (hI : Inv cap st) : Inv cap (step cap st (.cancel tid)) := by
  show Inv cap (cancelTask tid st).2
  unfold cancelTask
  split
  · exact hI
  · rename_i t0 hfind
    by_cases hterm : t0.status.isTerminal = true
    · rw [if_pos hterm]
      exact hI
    · rw [if_neg hterm]
      by_cases hpend : t0.status = TaskStatus.pending
      · rw [if_pos hpend]
        exact Inv_cancel_pending_aux cap st tid t0 hI hfind hpend
      · rw [if_neg hpend]
        exact Inv_flag_aux cap st tid _ hI
          (fun _ => rfl) (fun _ => rfl) (fun _ => rfl) (fun _ => rfl)
          (fun _ => rfl) (fun _ => rfl)

theorem Inv_grant (cap : String → ℕ) (st : MgrState) (g : String) (hI : Inv cap st) :
    Inv cap (step cap st (.grant g)) := by
  show Inv cap (grantPermit cap g st)
  unfold grantPermit
  split
  · exact hI
  · rename_i slot hlg
    split
    · exact hI
    · rename_i h rest hw
      by_cases hcap : slot.in_use < cap g
      · rw [if_pos hcap]
        split
        · rename_i hss
          cases hfind : findTask st h with
          | none =>
              rw [statusOf, hfind] at hss
              cases hss
          | some th =>
              rw [statusOf, hfind] at hss
              have hthp : th.status = TaskStatus.pending := Option.some.inj hss
              exact Inv_grant_aux cap st g slot h rest th hI hlg hw hcap hfind hthp
        · rename_i hss
          exact hI
      · rw [if_neg hcap]
        exact hI

theorem Inv_step (cap : String → ℕ) (st : MgrState) (a : Action) (hI : Inv cap st) :
    Inv cap (step cap st a) := by
  cases a with
  | submit gid p => exact Inv_submit cap st gid p hI
  | grant g => exact Inv_grant cap st g hI
  | finishOk tid r => exact Inv_finishOk cap st tid r hI
  | finishErr tid e => exact Inv_finishErr cap st tid e hI
  | checkpointCancel tid => exact Inv_checkpointCancel cap st tid hI
  | cancel tid => exact Inv_cancel cap st tid hI

theorem Inv_foldl (cap : String → ℕ) (acts : List Action) (st : MgrState)
    (hI : Inv cap st) : Inv cap (acts.foldl (step cap) st) := by
  induction acts generalizing st with
  | nil => exact hI
  | cons a acts ih => exact ih (step cap st a) (Inv_step cap st a hI)

theorem Inv_run (cap : String → ℕ) (acts : List Action) : Inv cap (run cap acts) :=
  Inv_foldl cap acts initState (Inv_init cap)

end TaskMgr

namespace TaskMgr

/-- Modelled from the spec: the admissible single-step evolutions of one
task's observed status (§4.5 state machine): unchanged, creation into
Pending, Pending→Running on grant, Running into a terminal state, or the
direct Pending→Cancelled edge; terminal states admit no move but
`refl`. -/
inductive StatusStep : Option TaskStatus → Option TaskStatus → Prop where
  | refl (s : Option TaskStatus) : StatusStep s s
  | create : StatusStep none (some TaskStatus.pending)
  | start : StatusStep (some TaskStatus.pending) (some TaskStatus.running)
  | complete : StatusStep (some TaskStatus.running) (some TaskStatus.completed)
  | fail : StatusStep (some TaskStatus.running) (some TaskStatus.failed)
  | cancelRun : StatusStep (some TaskStatus.running) (some TaskStatus.cancelled)
  | cancelPend : StatusStep (some TaskStatus.pending) (some TaskStatus.cancelled)

theorem StatusStep.terminal_fixed {s : TaskStatus} {y : Option TaskStatus}
    (hs : s.isTerminal = true) (h : StatusStep (some s) y) : y = some s := by
  cases h with
  | refl => rfl
  | start => cases hs
  | complete => cases hs
  | fail => cases hs
  | cancelRun => cases hs
  | cancelPend => cases hs

/-- Rank of an observed status along the lifecycle order. -/
def statusRank : Option TaskStatus → ℕ
  | none => 0
  | some TaskStatus.pending => 1
  | some TaskStatus.running => 2
  | some TaskStatus.completed => 3
  | some TaskStatus.failed => 3
  | some TaskStatus.cancelled => 3

theorem StatusStep.rank_le {x y : Option TaskStatus} (h : StatusStep x y) :
    statusRank x ≤ statusRank y := by
  cases h <;> simp [statusRank]

theorem find?_cons_new (l : List Task) (N : ℕ) (hlt : ∀ t ∈ l, t.id < N)
    (tnew : Task) (hid : tnew.id = N) (tid : ℕ) :
    (tnew :: l).find? (fun t => t.id == tid)
      = if tid = N then some tnew else l.find? (fun t => t.id == tid) := by
  by_cases htid : tid = N
  · subst htid
    rw [List.find?_cons_of_pos _ (by simp [hid]), if_pos rfl]
  · rw [List.find?_cons_of_neg _ (by simp [hid]; exact fun hc => htid hc.symm), if_neg htid]

theorem statusOf_step (cap : String → ℕ) (st : MgrState) (a : Action) (tid : ℕ)
    (hI : Inv cap st) : StatusStep (statusOf st tid) (statusOf (step cap st a) tid) := by
  cases a with
  | submit gid p =>
      cases gid with
      | none => exact .refl _
      | some g =>
          cases p with
          | none => exact .refl _
          | some pl =>
              by_cases hg : g = ""
              · have hred : step cap st (.submit (some g) (some pl)) = st := by
                  show (match submit (some g) (some pl) st with
                    | .ok (_, st') => st' | .error _ => st) = st
                  rw [show submit (some g) (some pl) st = .error .invalidRequest from by
                    show (if g = "" then _ else _) = _
                    rw [if_pos hg]]
                rw [hred]
                exact .refl _
              · have hred : step cap st (.submit (some g) (some pl))
                    = enqueueWaiter ⟨newTask st.nextId g pl st.clock :: st.tasks,
                        st.nextId + 1, st.groups, st.clock + 1⟩ g st.nextId := by
                  show (match submit (some g) (some pl) st with
                    | .ok (_, st') => st' | .error _ => st) = _
                  rw [show submit (some g) (some pl) st
                      = .ok (st.nextId, enqueueWaiter ⟨newTask st.nextId g pl st.clock ::
                          st.tasks, st.nextId + 1, st.groups, st.clock + 1⟩ g st.nextId) from by
                    show (if g = "" then _ else _) = _
                    rw [if_neg hg]]
                rw [hred]
                have htasks : (enqueueWaiter ⟨newTask st.nextId g pl st.clock :: st.tasks,
                    st.nextId + 1, st.groups, st.clock + 1⟩ g st.nextId).tasks
                    = newTask st.nextId g pl st.clock :: st.tasks := by
                  rw [enqueueWaiter]
                  cases hlg : lookupGroup (⟨newTask st.nextId g pl st.clock :: st.tasks,
                      st.nextId + 1, st.groups, st.clock + 1⟩ : MgrState) g <;> rfl
                have hnew : statusOf (enqueueWaiter ⟨newTask st.nextId g pl st.clock ::
                    st.tasks, st.nextId + 1, st.groups, st.clock + 1⟩ g st.nextId) tid
                    = if tid = st.nextId then some TaskStatus.pending else statusOf st tid := by
                  rw [statusOf, findTask]
                  rw [htasks]
                  rw [find?_cons_new st.tasks st.nextId hI.ids_lt _ rfl tid]
                  by_cases htid : tid = st.nextId
                  · rw [if_pos htid, if_pos htid]
                    rfl
                  · rw [if_neg htid, if_neg htid]
                    rfl
                rw [hnew]
                by_cases htid : tid = st.nextId
                · rw [if_pos htid]
                  have hnone : statusOf st tid = none := by
                    rw [statusOf, findTask, List.find?_eq_none.mpr]
                    · rfl
                    · intro t ht
                      have := hI.ids_lt t ht
                      simp only [beq_iff_eq]
                      omega
                  rw [hnone]
                  exact .create
                · rw [if_neg htid]
                  exact .refl _
  | grant g =>
      show StatusStep (statusOf st tid) (statusOf (grantPermit cap g st) tid)
      unfold grantPermit
      split
      · exact .refl _
      · rename_i slot hlg
        split
        · exact .refl _
        · rename_i h rest hw
          by_cases hcap : slot.in_use < cap g
          · rw [if_pos hcap]
            split
            · rename_i hss
              cases hfind : findTask st h with
              | none =>
                  rw [statusOf, hfind] at hss
                  cases hss
              | some th =>
                  rw [statusOf, hfind] at hss
                  have hthp : th.status = TaskStatus.pending := Option.some.inj hss
                  have hstat : statusOf (updateTask (updateGroup st g
                      (fun s => { s with in_use := s.in_use + 1, waiters := rest })) h
                      (fun t => { t with status := TaskStatus.running, started_at := some st.clock })) tid
                      = if tid = h then some TaskStatus.running else statusOf st tid := by
                    rw [statusOf, findTask_updateTask _ _ _ (fun t : Task => { t with status := TaskStatus.running, started_at := some st.clock }) (fun _ => rfl)]
                    by_cases htid : tid = h
                    · rw [if_pos htid, if_pos htid]
                      show ((findTask st h).map _).map _ = _
                      rw [hfind]
                      rfl
                    · rw [if_neg htid, if_neg htid]
                      rfl
                  rw [hstat]
                  by_cases htid : tid = h
                  · rw [if_pos htid, htid]
                    rw [statusOf, hfind]
                    show StatusStep (some th.status) _
                    rw [hthp]
                    exact .start
                  · rw [if_neg htid]
                    exact .refl _
            · exact .refl _
          · rw [if_neg hcap]
            exact .refl _
  | finishOk tid0 r =>
      show StatusStep (statusOf st tid) (statusOf (finishOk tid0 r st) tid)
      unfold finishOk
      split
      · exact .refl _
      · rename_i t0 hfind
        by_cases hrun : t0.status = TaskStatus.running
        · rw [if_pos hrun]
          by_cases hcreq : t0.cancel_requested = true
          · rw [if_pos hcreq]
            have hstat : statusOf (updateTask (releasePermit st t0.group_id) tid0
                (fun u => { u with status := TaskStatus.cancelled, finished_at := some st.clock })) tid
                = if tid = tid0 then some TaskStatus.cancelled else statusOf st tid := by
              rw [statusOf, findTask_updateTask _ _ _ (fun u : Task => { u with status := TaskStatus.cancelled, finished_at := some st.clock }) (fun _ => rfl)]
              by_cases htid : tid = tid0
              · rw [if_pos htid, if_pos htid]
                show ((findTask st tid0).map _).map _ = _
                rw [hfind]
                rfl
              · rw [if_neg htid, if_neg htid]
                rfl
            rw [hstat]
            by_cases htid : tid = tid0
            · rw [if_pos htid, htid, statusOf, hfind]
              show StatusStep (some t0.status) _
              rw [hrun]
              exact .cancelRun
            · rw [if_neg htid]
              exact .refl _
          · rw [if_neg hcreq]
            have hstat : statusOf (updateTask (releasePermit st t0.group_id) tid0
                (fun u => { u with status := TaskStatus.completed, result := some r, finished_at := some st.clock })) tid
                = if tid = tid0 then some TaskStatus.completed else statusOf st tid := by
              rw [statusOf, findTask_updateTask _ _ _ (fun u : Task => { u with status := TaskStatus.completed, result := some r, finished_at := some st.clock }) (fun _ => rfl)]
              by_cases htid : tid = tid0
              · rw [if_pos htid, if_pos htid]
                show ((findTask st tid0).map _).map _ = _
                rw [hfind]
                rfl
              · rw [if_neg htid, if_neg htid]
                rfl
            rw [hstat]
            by_cases htid : tid = tid0
            · rw [if_pos htid, htid, statusOf, hfind]
              show StatusStep (some t0.status) _
              rw [hrun]
              exact .complete
            · rw [if_neg htid]
              exact .refl _
        · rw [if_neg hrun]
          exact .refl _
  | finishErr tid0 e =>
      show StatusStep (statusOf st tid) (statusOf (finishErr tid0 e st) tid)
      unfold finishErr
      split
      · exact .refl _
      · rename_i t0 hfind
        by_cases hrun : t0.status = TaskStatus.running
        · rw [if_pos hrun]
          have hstat : statusOf (updateTask (releasePermit st t0.group_id) tid0
              (fun u => { u with status := TaskStatus.failed, error := some e, finished_at := some st.clock })) tid
              = if tid = tid0 then some TaskStatus.failed else statusOf st tid := by
            rw [statusOf, findTask_updateTask _ _ _ (fun u : Task => { u with status := TaskStatus.failed, error := some e, finished_at := some st.clock }) (fun _ => rfl)]
            by_cases htid : tid = tid0
            · rw [if_pos htid, if_pos htid]
              show ((findTask st tid0).map _).map _ = _
              rw [hfind]
              rfl
            · rw [if_neg htid, if_neg htid]
              rfl
          rw [hstat]
          by_cases htid : tid = tid0
          · rw [if_pos htid, htid, statusOf, hfind]
            show StatusStep (some t0.status) _
            rw [hrun]
            exact .fail
          · rw [if_neg htid]
            exact .refl _
        · rw [if_neg hrun]
          exact .refl _
  | checkpointCancel tid0 =>
      show StatusStep (statusOf st tid) (statusOf (checkpointCancel tid0 st) tid)
      unfold checkpointCancel
      split
      · exact .refl _
      · rename_i t0 hfind
        by_cases hrun : t0.status = TaskStatus.running
        · rw [if_pos hrun]
          by_cases hcreq : t0.cancel_requested = true
          · rw [if_pos hcreq]
            have hstat : statusOf (updateTask (releasePermit st t0.group_id) tid0
                (fun u => { u with status := TaskStatus.cancelled, finished_at := some st.clock })) tid
                = if tid = tid0 then some TaskStatus.cancelled else statusOf st tid := by
              rw [statusOf, findTask_updateTask _ _ _ (fun u : Task => { u with status := TaskStatus.cancelled, finished_at := some st.clock }) (fun _ => rfl)]
              by_cases htid : tid = tid0
              · rw [if_pos htid, if_pos htid]
                show ((findTask st tid0).map _).map _ = _
                rw [hfind]
                rfl
              · rw [if_neg htid, if_neg htid]
                rfl
            rw [hstat]
            by_cases htid : tid = tid0
            · rw [if_pos htid, htid, statusOf, hfind]
              show StatusStep (some t0.status) _
              rw [hrun]
              exact .cancelRun
            · rw [if_neg htid]
              exact .refl _
          · rw [if_neg hcreq]
            exact .refl _
        · rw [if_neg hrun]
          exact .refl _
  | cancel tid0 =>
      show StatusStep (statusOf st tid) (statusOf (cancelTask tid0 st).2 tid)
      unfold cancelTask
      split
      · exact .refl _
      · rename_i t0 hfind
        by_cases hterm : t0.status.isTerminal = true
        · rw [if_pos hterm]
          exact .refl _
        · rw [if_neg hterm]
          by_cases hpend : t0.status = TaskStatus.pending
          · rw [if_pos hpend]
            have hstat : statusOf (updateTask (removeWaiter st t0.group_id tid0) tid0
                (fun u => { u with status := TaskStatus.cancelled, finished_at := some st.clock, cancel_requested := true })) tid
                = if tid = tid0 then some TaskStatus.cancelled else statusOf st tid := by
              rw [statusOf, findTask_updateTask _ _ _ (fun u : Task => { u with status := TaskStatus.cancelled, finished_at := some st.clock, cancel_requested := true }) (fun _ => rfl)]
              by_cases htid : tid = tid0
              · rw [if_pos htid, if_pos htid]
                show ((findTask st tid0).map _).map _ = _
                rw [hfind]
                rfl
              · rw [if_neg htid, if_neg htid]
                rfl
            rw [hstat]
            by_cases htid : tid = tid0
            · rw [if_pos htid, htid, statusOf, hfind]
              show StatusStep (some t0.status) _
              rw [hpend]
              exact .cancelPend
            · rw [if_neg htid]
              exact .refl _
          · rw [if_neg hpend]
            have hstat : statusOf (updateTask st tid0
                (fun u => { u with cancel_requested := true })) tid
                = statusOf st tid := by
              rw [statusOf, findTask_updateTask _ _ _ (fun u : Task => { u with cancel_requested := true }) (fun _ => rfl)]
              by_cases htid : tid = tid0
              · rw [if_pos htid, htid, statusOf]
                cases hf : findTask st tid0 <;> rfl
              · rw [if_neg htid]
                rfl
            rw [hstat]
            exact .refl _

end TaskMgr

namespace TaskMgr

theorem stateAt_succ (cap : String → ℕ) (acts : List Action) (k : ℕ) (a : Action)
    (ha : acts[k]? = some a) :
    stateAt cap acts (k + 1) = step cap (stateAt cap acts k) a := by
  rw [stateAt, stateAt, List.take_succ, ha]
  show (acts.take k ++ [a]).foldl (step cap) initState = _
  rw [List.foldl_append]
  rfl

theorem stateAt_succ_none (cap : String → ℕ) (acts : List Action) (k : ℕ)
    (ha : acts[k]? = none) :
    stateAt cap acts (k + 1) = stateAt cap acts k := by
  rw [stateAt, stateAt, List.take_succ, ha]
  show (acts.take k ++ []).foldl (step cap) initState = _
  rw [List.append_nil]
  rfl

theorem Inv_stateAt (cap : String → ℕ) (acts : List Action) (k : ℕ) :
    Inv cap (stateAt cap acts k) := Inv_run cap (acts.take k)

theorem statusStep_stateAt (cap : String → ℕ) (acts : List Action) (k : ℕ) (tid : ℕ) :
    StatusStep (statusOf (stateAt cap acts k) tid)
      (statusOf (stateAt cap acts (k + 1)) tid) := by
  cases ha : acts[k]? with
  | none =>
      rw [stateAt_succ_none cap acts k ha]
      exact .refl _
  | some a =>
      rw [stateAt_succ cap acts k a ha]
      exact statusOf_step cap _ a tid (Inv_stateAt cap acts k)

theorem statusRank_mono (cap : String → ℕ) (acts : List Action) (tid : ℕ)
    {k m : ℕ} (hkm : k ≤ m) :
    statusRank (statusOf (stateAt cap acts k) tid)
      ≤ statusRank (statusOf (stateAt cap acts m) tid) := by
  induction m with
  | zero =>
      have : k = 0 := Nat.le_zero.mp hkm
      rw [this]
  | succ m ih =>
      by_cases hk : k = m + 1
      · rw [hk]
      · have hle : k ≤ m := by omega
        exact le_trans (ih hle) (statusStep_stateAt cap acts m tid).rank_le

theorem statusOf_terminal_stable (cap : String → ℕ) (acts : List Action) (tid : ℕ)
    {s : TaskStatus} (hs : s.isTerminal = true) {k m : ℕ} (hkm : k ≤ m)
    (h : statusOf (stateAt cap acts k) tid = some s) :
    statusOf (stateAt cap acts m) tid = some s := by
  induction m with
  | zero =>
      have : k = 0 := Nat.le_zero.mp hkm
      rw [← this]
      exact h
  | succ m ih =>
      by_cases hk : k = m + 1
      · rw [← hk]
        exact h
      · have hle : k ≤ m := by omega
        have hm := ih hle
        have hstep := statusStep_stateAt cap acts m tid
        rw [hm] at hstep
        exact StatusStep.terminal_fixed hs hstep

theorem findTask_terminal_step (cap : String → ℕ) (st : MgrState) (a : Action)
    (tid : ℕ) (t : Task) (hI : Inv cap st) (hf : findTask st tid = some t)
    (ht : t.status.isTerminal = true) :
    findTask (step cap st a) tid = some t := by
  obtain ⟨htmem, htid⟩ := (findTask_eq_some_iff st tid t hI.ids_nodup).mp hf
  cases a with
  | submit gid p =>
      cases gid with
      | none => exact hf
      | some g =>
          cases p with
          | none => exact hf
          | some pl =>
              by_cases hg : g = ""
              · have hred : step cap st (.submit (some g) (some pl)) = st := by
                  show (match submit (some g) (some pl) st with
                    | .ok (_, st') => st' | .error _ => st) = st
                  rw [show submit (some g) (some pl) st = .error .invalidRequest from by
                    show (if g = "" then _ else _) = _
                    rw [if_pos hg]]
                rw [hred]
                exact hf
              · have hred : step cap st (.submit (some g) (some pl))
                    = enqueueWaiter ⟨newTask st.nextId g pl st.clock :: st.tasks,
                        st.nextId + 1, st.groups, st.clock + 1⟩ g st.nextId := by
                  show (match submit (some g) (some pl) st with
                    | .ok (_, st') => st' | .error _ => st) = _
                  rw [show submit (some g) (some pl) st
                      = .ok (st.nextId, enqueueWaiter ⟨newTask st.nextId g pl st.clock ::
                          st.tasks, st.nextId + 1, st.groups, st.clock + 1⟩ g st.nextId) from by
                    show (if g = "" then _ else _) = _
                    rw [if_neg hg]]
                rw [hred]
                have htasks : (enqueueWaiter ⟨newTask st.nextId g pl st.clock :: st.tasks,
                    st.nextId + 1, st.groups, st.clock + 1⟩ g st.nextId).tasks
                    = newTask st.nextId g pl st.clock :: st.tasks := by
                  rw [enqueueWaiter]
                  cases hlg : lookupGroup (⟨newTask st.nextId g pl st.clock :: st.tasks,
                      st.nextId + 1, st.groups, st.clock + 1⟩ : MgrState) g <;> rfl
                show (enqueueWaiter _ g st.nextId).tasks.find? (fun u => u.id == tid) = some t
                rw [htasks]
                rw [find?_cons_new st.tasks st.nextId hI.ids_lt _ rfl tid]
                have : tid ≠ st.nextId := by
                  have := hI.ids_lt t htmem
                  omega
                rw [if_neg this]
                exact hf
  | grant g =>
      show findTask (grantPermit cap g st) tid = some t
      unfold grantPermit
      split
      · exact hf
      · rename_i slot hlg
        split
        · exact hf
        · rename_i h rest hw
          by_cases hcap : slot.in_use < cap g
          · rw [if_pos hcap]
            split
            · rename_i hss
              have hne : tid ≠ h := by
                intro hc
                rw [hc] at hf
                rw [statusOf, hf] at hss
                have := Option.some.inj hss
                rw [this] at ht
                cases ht
              rw [findTask_updateTask _ _ _ (fun u : Task => { u with status := TaskStatus.running, started_at := some st.clock }) (fun _ => rfl), if_neg hne]
              exact hf
            · exact hf
          · rw [if_neg hcap]
            exact hf
  | finishOk tid0 r =>
      show findTask (finishOk tid0 r st) tid = some t
      unfold finishOk
      split
      · exact hf
      · rename_i t0 hfind0
        by_cases hrun : t0.status = TaskStatus.running
        · rw [if_pos hrun]
          have hne : tid ≠ tid0 := by
            intro hc
            rw [hc, hfind0] at hf
            have heq := Option.some.inj hf
            rw [heq] at hrun
            rw [hrun] at ht
            exact Bool.false_ne_true ht
          by_cases hcreq : t0.cancel_requested = true
          · rw [if_pos hcreq]
            rw [findTask_updateTask _ _ _ (fun u : Task => { u with status := TaskStatus.cancelled, finished_at := some st.clock }) (fun _ => rfl), if_neg hne]
            exact hf
          · rw [if_neg hcreq]
            rw [findTask_updateTask _ _ _ (fun u : Task => { u with status := TaskStatus.completed, result := some r, finished_at := some st.clock }) (fun _ => rfl), if_neg hne]
            exact hf
        · rw [if_neg hrun]
          exact hf
  | finishErr tid0 e =>
      show findTask (finishErr tid0 e st) tid = some t
      unfold finishErr
      split
      · exact hf
      · rename_i t0 hfind0
        by_cases hrun : t0.status = TaskStatus.running
        · rw [if_pos hrun]
          have hne : tid ≠ tid0 := by
            intro hc
            rw [hc, hfind0] at hf
            have heq := Option.some.inj hf
            rw [heq] at hrun
            rw [hrun] at ht
            exact Bool.false_ne_true ht
          rw [findTask_updateTask _ _ _ (fun u : Task => { u with status := TaskStatus.failed, error := some e, finished_at := some st.clock }) (fun _ => rfl), if_neg hne]
          exact hf
        · rw [if_neg hrun]
          exact hf
  | checkpointCancel tid0 =>
      show findTask (checkpointCancel tid0 st) tid = some t
      unfold checkpointCancel
      split
      · exact hf
      · rename_i t0 hfind0
        by_cases hrun : t0.status = TaskStatus.running
        · rw [if_pos hrun]
          have hne : tid ≠ tid0 := by
            intro hc
            rw [hc, hfind0] at hf
            have heq := Option.some.inj hf
            rw [heq] at hrun
            rw [hrun] at ht
            exact Bool.false_ne_true ht
          by_cases hcreq : t0.cancel_requested = true
          · rw [if_pos hcreq]
            rw [findTask_updateTask _ _ _ (fun u : Task => { u with status := TaskStatus.cancelled, finished_at := some st.clock }) (fun _ => rfl), if_neg hne]
            exact hf
          · rw [if_neg hcreq]
            exact hf
        · rw [if_neg hrun]
          exact hf
  | cancel tid0 =>
      show findTask (cancelTask tid0 st).2 tid = some t
      unfold cancelTask
      split
      · exact hf
      · rename_i t0 hfind0
        by_cases hterm0 : t0.status.isTerminal = true
        · rw [if_pos hterm0]
          exact hf
        · rw [if_neg hterm0]
          have hne : tid ≠ tid0 := by
            intro hc
            rw [hc, hfind0] at hf
            have heq := Option.some.inj hf
            rw [heq] at hterm0
            exact hterm0 ht
          by_cases hpend : t0.status = TaskStatus.pending
          · rw [if_pos hpend]
            rw [findTask_updateTask _ _ _ (fun u : Task => { u with status := TaskStatus.cancelled, finished_at := some st.clock, cancel_requested := true }) (fun _ => rfl), if_neg hne]
            exact hf
          · rw [if_neg hpend]
            rw [findTask_updateTask _ _ _ (fun u : Task => { u with cancel_requested := true }) (fun _ => rfl), if_neg hne]
            exact hf

end TaskMgr

namespace TaskMgr

theorem findTask_terminal_stable (cap : String → ℕ) (acts : List Action) (tid : ℕ)
    (t : Task) (hs : t.status.isTerminal = true) {k m : ℕ} (hkm : k ≤ m)
    (h : findTask (stateAt cap acts k) tid = some t) :
    findTask (stateAt cap acts m) tid = some t := by
  induction m with
  | zero =>
      have h0 : k = 0 := Nat.le_zero.mp hkm
      rw [← h0]
      exact h
  | succ m ih =>
      by_cases hk : k = m + 1
      · rw [← hk]
        exact h
      · have hle : k ≤ m := by omega
        have hm := ih hle
        cases ha : acts[m]? with
        | none =>
            rw [stateAt_succ_none cap acts m ha]
            exact hm
        | some a =>
            rw [stateAt_succ cap acts m a ha]
            exact findTask_terminal_step cap _ a tid t (Inv_stateAt cap acts m) hm hs

theorem statusOf_inv (st : MgrState) (tid : ℕ) (s : TaskStatus)
    (h : statusOf st tid = some s) :
    ∃ t, findTask st tid = some t ∧ t.status = s := by
  rw [statusOf] at h
  cases hf : findTask st tid with
  | none =>
      rw [hf] at h
      cases h
  | some t =>
      rw [hf] at h
      exact ⟨t, rfl, Option.some.inj h⟩

theorem waitView_eq (st : MgrState) (tid : ℕ) (t : Task)
    (h : findTask st tid = some t) (ht : t.status.isTerminal = true) :
    waitView st tid = .immediate ⟨t.status, t.result, t.error⟩ := by
  unfold waitView
  rw [h]
  show (if t.status.isTerminal = true
    then WaitView.immediate ⟨t.status, t.result, t.error⟩
    else WaitView.wouldSuspend) = _
  rw [if_pos ht]

theorem cancelTask_pending_eq (st : MgrState) (tid : ℕ) (t0 : Task)
    (hfind : findTask st tid = some t0) (hp : t0.status = TaskStatus.pending) :
    (cancelTask tid st).2 = updateTask (removeWaiter st t0.group_id tid) tid
      (fun u => { u with status := TaskStatus.cancelled, finished_at := some st.clock, cancel_requested := true }) := by
  unfold cancelTask
  rw [hfind]
  show ((if t0.status.isTerminal = true then (CancelResp.alreadyTerminal, st)
    else if t0.status = TaskStatus.pending
      then (CancelResp.ack, updateTask (removeWaiter st t0.group_id tid) tid
        (fun u => { u with status := TaskStatus.cancelled, finished_at := some st.clock, cancel_requested := true }))
      else (CancelResp.ack, updateTask st tid
        (fun u => { u with cancel_requested := true }))) : CancelResp × MgrState).2 = _
  rw [if_neg (by rw [hp]; exact Bool.false_ne_true), if_pos hp]

theorem finishErr_running_eq (st : MgrState) (tid : ℕ) (e : String) (t0 : Task)
    (hfind : findTask st tid = some t0) (hrun : t0.status = TaskStatus.running) :
    finishErr tid e st = updateTask (releasePermit st t0.group_id) tid
      (fun u => { u with status := TaskStatus.failed, error := some e, finished_at := some st.clock }) := by
  unfold finishErr
  rw [hfind]
  show (if t0.status = TaskStatus.running
    then updateTask (releasePermit st t0.group_id) tid
      (fun u => { u with status := TaskStatus.failed, error := some e, finished_at := some st.clock })
    else st) = _
  rw [if_pos hrun]

end TaskMgr

/-- C1: in every reachable state of the modelled task manager, every
group's counter satisfies `0 ≤ in_use ≤ capacity`, `in_use` equals the
number of Running tasks of the group, so at most `capacity` tasks per
group are Running; and there is no cap across groups: with every capacity
5, a state with six Running tasks (in six groups) is reachable. -/
theorem c1_group_capacity :
    (∀ (cap : String → ℕ) (acts : List TaskMgr.Action) (g : String)
      (slot : TaskMgr.GroupSlot),
      TaskMgr.lookupGroup (TaskMgr.run cap acts) g = some slot →
        0 ≤ slot.in_use ∧ slot.in_use ≤ cap g ∧
        slot.in_use = TaskMgr.runningCount (TaskMgr.run cap acts) g ∧
        TaskMgr.runningCount (TaskMgr.run cap acts) g ≤ cap g) ∧
    (∃ acts : List TaskMgr.Action,
      5 < TaskMgr.totalRunning (TaskMgr.run (fun _ => 5) acts)) := by
  constructor
  · intro cap acts g slot hl
    have hI := TaskMgr.Inv_run cap acts
    have h1 := hI.cap_bound g slot hl
    have h2 := hI.in_use_eq g slot hl
    exact ⟨Nat.zero_le _, h1, h2, h2 ▸ h1⟩
  · refine ⟨[.submit (some "a") (some "p"), .grant "a",
      .submit (some "b") (some "p"), .grant "b",
      .submit (some "c") (some "p"), .grant "c",
      .submit (some "d") (some "p"), .grant "d",
      .submit (some "e") (some "p"), .grant "e",
      .submit (some "f") (some "p"), .grant "f"], ?_⟩
    decide

/-- Witness for C1 at a concrete execution: after one submission the
group's slot exists and the bounds hold. -/
theorem c1_group_capacity_witness :
    TaskMgr.lookupGroup (TaskMgr.run (fun _ => 5) [.submit (some "a") (some "p")]) "a"
      = some { in_use := 0, waiters := [0] } ∧
    ({ in_use := 0, waiters := [0] } : TaskMgr.GroupSlot).in_use ≤ 5 := by
  refine ⟨by decide, ?_⟩
  exact (c1_group_capacity.1 (fun _ => 5) [.submit (some "a") (some "p")] "a"
    { in_use := 0, waiters := [0] } (by decide)).2.1

/-- C2: in every reachable state, each group's waiter queue lists task ids
in strictly increasing (= submission) order, and every task of the group
that ever started Running has a smaller id than every task still queued:
within a group, permits are granted strictly in submission (FIFO) order.
Ids are allocated sequentially, so a smaller id means an earlier
submission; across groups nothing is claimed. -/
theorem c2_fifo_within_group :
    ∀ (cap : String → ℕ) (acts : List TaskMgr.Action) (g : String)
      (slot : TaskMgr.GroupSlot),
      TaskMgr.lookupGroup (TaskMgr.run cap acts) g = some slot →
      slot.waiters.Pairwise (· < ·) ∧
      (∀ t ∈ (TaskMgr.run cap acts).tasks, t.group_id = g → t.started_at ≠ none →
        ∀ w ∈ slot.waiters, t.id < w) := by
  intro cap acts g slot hl
  have hI := TaskMgr.Inv_run cap acts
  refine ⟨hI.waiters_sorted g slot hl, ?_⟩
  intro t ht hg hs w hw
  exact hI.started_fifo t ht hs slot (by rw [hg]; exact hl) w hw

/-- Witness for C2: two submissions to one group with capacity 1; the
first task started, the second is queued behind it. -/
theorem c2_fifo_within_group_witness :
    TaskMgr.lookupGroup (TaskMgr.run (fun _ => 1)
      [.submit (some "a") (some "p"), .submit (some "a") (some "q"), .grant "a"]) "a"
      = some { in_use := 1, waiters := [1] } ∧
    ([1] : List ℕ).Pairwise (· < ·) := by
  refine ⟨by decide, ?_⟩
  exact (c2_fifo_within_group (fun _ => 1)
    [.submit (some "a") (some "p"), .submit (some "a") (some "q"), .grant "a"] "a"
    { in_use := 1, waiters := [1] } (by decide)).1

/-- C3: between any two consecutive states of any execution, a task's
observed status moves only along Pending→Running→{Completed, Failed,
Cancelled} or directly Pending→Cancelled (or stays put / comes into
existence as Pending); and once a terminal status is observed it persists
at every later instant. -/
theorem c3_status_monotone :
    (∀ (cap : String → ℕ) (acts : List TaskMgr.Action) (k tid : ℕ),
      TaskMgr.StatusStep (TaskMgr.statusOf (TaskMgr.stateAt cap acts k) tid)
        (TaskMgr.statusOf (TaskMgr.stateAt cap acts (k + 1)) tid)) ∧
    (∀ (cap : String → ℕ) (acts : List TaskMgr.Action) (tid : ℕ) (s : TaskMgr.TaskStatus),
      s.isTerminal = true → ∀ k m : ℕ, k ≤ m →
      TaskMgr.statusOf (TaskMgr.stateAt cap acts k) tid = some s →
      TaskMgr.statusOf (TaskMgr.stateAt cap acts m) tid = some s) := by
  constructor
  · intro cap acts k tid
    exact TaskMgr.statusStep_stateAt cap acts k tid
  · intro cap acts tid s hs k m hkm h
    exact TaskMgr.statusOf_terminal_stable cap acts tid hs hkm h

/-- Witness for C3's persistence conjunct: a task cancelled while Pending
stays Cancelled at the next instant. -/
theorem c3_status_monotone_witness :
    TaskMgr.TaskStatus.cancelled.isTerminal = true ∧
    TaskMgr.statusOf (TaskMgr.stateAt (fun _ => 0)
      [.submit (some "g") (some "p"), .cancel 0] 2) 0
      = some TaskMgr.TaskStatus.cancelled ∧
    TaskMgr.statusOf (TaskMgr.stateAt (fun _ => 0)
      [.submit (some "g") (some "p"), .cancel 0] 3) 0
      = some TaskMgr.TaskStatus.cancelled := by
  refine ⟨by decide, by decide, ?_⟩
  exact c3_status_monotone.2 (fun _ => 0) [.submit (some "g") (some "p"), .cancel 0] 0
    TaskMgr.TaskStatus.cancelled (by decide) 2 3 (by omega) (by decide)

/-- C4: `submit` validates synchronously: on an absent or malformed
`group_id`/`payload` it returns InvalidRequest and the state (in
particular the Task Record Store) is unchanged — no record is created; on
valid input it returns the fresh id at once together with the new state,
in which that id maps to a Pending record and no group's `in_use` has
changed (the caller holds no permit and is not blocked on execution). -/
theorem c4_submit_validation :
    ∀ (cap : String → ℕ) (st : TaskMgr.MgrState) (gid payload : Option String),
      (TaskMgr.validRequest gid payload = false →
        TaskMgr.submit gid payload st = .error .invalidRequest ∧
        TaskMgr.step cap st (.submit gid payload) = st) ∧
      (TaskMgr.validRequest gid payload = true →
        ∃ st', TaskMgr.submit gid payload st = .ok (st.nextId, st') ∧
          TaskMgr.statusOf st' st.nextId = some TaskMgr.TaskStatus.pending ∧
          (∀ g slot slot', TaskMgr.lookupGroup st g = some slot →
            TaskMgr.lookupGroup st' g = some slot' → slot'.in_use = slot.in_use)) := by
  intro cap st gid payload
  cases gid with
  | none => exact ⟨fun _ => ⟨rfl, rfl⟩, fun hv => by cases hv⟩
  | some g =>
      cases payload with
      | none => exact ⟨fun _ => ⟨rfl, rfl⟩, fun hv => by cases hv⟩
      | some pl =>
          by_cases hg : g = ""
          · constructor
            · intro _
              constructor
              · show (if g = "" then _ else _) = _
                rw [if_pos hg]
              · show (match TaskMgr.submit (some g) (some pl) st with
                  | .ok (_, st') => st' | .error _ => st) = st
                rw [show TaskMgr.submit (some g) (some pl) st
                    = .error .invalidRequest from by
                  show (if g = "" then _ else _) = _
                  rw [if_pos hg]]
            · intro hv
              have : TaskMgr.validRequest (some g) (some pl) = false := by
                show (g != "") = false
                rw [hg]
                rfl
              rw [hv] at this
              cases this
          · constructor
            · intro hv
              have : TaskMgr.validRequest (some g) (some pl) = true := by
                show (g != "") = true
                exact bne_iff_ne.mpr hg
              rw [hv] at this
              cases this
            · intro _
              refine ⟨TaskMgr.enqueueWaiter ⟨TaskMgr.newTask st.nextId g pl st.clock ::
                st.tasks, st.nextId + 1, st.groups, st.clock + 1⟩ g st.nextId, ?_, ?_, ?_⟩
              · show (if g = "" then _ else _) = _
                rw [if_neg hg]
              · have htasks : (TaskMgr.enqueueWaiter ⟨TaskMgr.newTask st.nextId g pl
                    st.clock :: st.tasks, st.nextId + 1, st.groups, st.clock + 1⟩ g
                    st.nextId).tasks
                    = TaskMgr.newTask st.nextId g pl st.clock :: st.tasks := by
                  rw [TaskMgr.enqueueWaiter]
                  cases hlg : TaskMgr.lookupGroup (⟨TaskMgr.newTask st.nextId g pl st.clock
                      :: st.tasks, st.nextId + 1, st.groups, st.clock + 1⟩ :
                      TaskMgr.MgrState) g <;> rfl
                rw [TaskMgr.statusOf, TaskMgr.findTask, htasks,
                  List.find?_cons_of_pos _ (by simp [TaskMgr.newTask])]
                rfl
              · intro g' slot slot' hs hs'
                rw [TaskMgr.enqueueWaiter] at hs'
                cases hlg : TaskMgr.lookupGroup (⟨TaskMgr.newTask st.nextId g pl st.clock
                    :: st.tasks, st.nextId + 1, st.groups, st.clock + 1⟩ :
                    TaskMgr.MgrState) g with
                | some slot0 =>
                    rw [hlg] at hs'
                    have hs'' : TaskMgr.lookupGroup (TaskMgr.updateGroup
                        ⟨TaskMgr.newTask st.nextId g pl st.clock :: st.tasks,
                          st.nextId + 1, st.groups, st.clock + 1⟩ g
                        (fun s => { s with waiters := s.waiters ++ [st.nextId] })) g'
                        = some slot' := hs'
                    rw [TaskMgr.lookupGroup_updateGroup] at hs''
                    have hlg0 : TaskMgr.lookupGroup st g = some slot0 := hlg
                    by_cases hgg : g' = g
                    · rw [if_pos hgg, hlg] at hs''
                      have h1 : slot = slot0 := by
                        rw [hgg] at hs
                        rw [hs] at hlg0
                        exact Option.some.inj hlg0
                      have h2 := Option.some.inj hs''
                      rw [← h2, h1]
                    · rw [if_neg hgg] at hs''
                      have : TaskMgr.lookupGroup st g' = some slot' := hs''
                      rw [hs] at this
                      rw [Option.some.inj this]
                | none =>
                    rw [hlg] at hs'
                    have hlg0 : TaskMgr.lookupGroup st g = none := hlg
                    have hs'' : ((g, ({ in_use := 0, waiters := [st.nextId] } :
                        TaskMgr.GroupSlot)) :: st.groups).lookup g' = some slot' := hs'
                    rw [TaskMgr.lookup_cons_eq] at hs''
                    by_cases hgg : g' = g
                    · rw [hgg] at hs
                      rw [hs] at hlg0
                      cases hlg0
                    · rw [if_neg hgg] at hs''
                      have : TaskMgr.lookupGroup st g' = some slot' := hs''
                      rw [hs] at this
                      rw [Option.some.inj this]

/-- Witness for C4: an invalid and a valid concrete submission. -/
theorem c4_submit_validation_witness :
    TaskMgr.validRequest none (some "p") = false ∧
    TaskMgr.submit none (some "p") TaskMgr.initState = .error .invalidRequest ∧
    TaskMgr.validRequest (some "g") (some "p") = true ∧
    (∃ st', TaskMgr.submit (some "g") (some "p") TaskMgr.initState
        = .ok (TaskMgr.initState.nextId, st') ∧
      TaskMgr.statusOf st' TaskMgr.initState.nextId
        = some TaskMgr.TaskStatus.pending ∧
      (∀ g slot slot', TaskMgr.lookupGroup TaskMgr.initState g = some slot →
        TaskMgr.lookupGroup st' g = some slot' → slot'.in_use = slot.in_use)) := by
  refine ⟨by decide, ?_, by decide, ?_⟩
  · exact ((c4_submit_validation (fun _ => 5) TaskMgr.initState none (some "p")).1
      (by decide)).1
  · exact (c4_submit_validation (fun _ => 5) TaskMgr.initState (some "g") (some "p")).2
      (by decide)

/-- C5: a task cancelled while Pending (hence still queued) transitions
directly to Cancelled at the next instant, is never observed Running at
any instant of the execution, is in no group's waiter queue afterwards,
and no group's `in_use` counter changes at the cancel step (no permit is
ever consumed for it). -/
theorem c5_cancel_pending (cap : String → ℕ) (acts : List TaskMgr.Action) (k tid : ℕ)
    (ha : acts[k]? = some (.cancel tid))
    (hp : TaskMgr.statusOf (TaskMgr.stateAt cap acts k) tid
      = some TaskMgr.TaskStatus.pending) :
    TaskMgr.statusOf (TaskMgr.stateAt cap acts (k + 1)) tid
      = some TaskMgr.TaskStatus.cancelled ∧
    (∀ m, TaskMgr.statusOf (TaskMgr.stateAt cap acts m) tid
      ≠ some TaskMgr.TaskStatus.running) ∧
    (∀ g slot', TaskMgr.lookupGroup (TaskMgr.stateAt cap acts (k + 1)) g = some slot' →
      tid ∉ slot'.waiters) ∧
    (∀ g slot slot', TaskMgr.lookupGroup (TaskMgr.stateAt cap acts k) g = some slot →
      TaskMgr.lookupGroup (TaskMgr.stateAt cap acts (k + 1)) g = some slot' →
      slot'.in_use = slot.in_use) := by
  obtain ⟨t0, hfind, ht0p⟩ := TaskMgr.statusOf_inv _ tid _ hp
  have hstep := TaskMgr.stateAt_succ cap acts k _ ha
  have hredu : TaskMgr.stateAt cap acts (k + 1)
      = TaskMgr.updateTask (TaskMgr.removeWaiter (TaskMgr.stateAt cap acts k)
          t0.group_id tid) tid
        (fun u => { u with status := TaskMgr.TaskStatus.cancelled, finished_at := some (TaskMgr.stateAt cap acts k).clock, cancel_requested := true }) := by
    rw [hstep]
    exact TaskMgr.cancelTask_pending_eq _ tid t0 hfind ht0p
  have hstat : TaskMgr.statusOf (TaskMgr.stateAt cap acts (k + 1)) tid
      = some TaskMgr.TaskStatus.cancelled := by
    rw [hredu, TaskMgr.statusOf, TaskMgr.findTask_updateTask _ _ _
      (fun u : TaskMgr.Task => { u with status := TaskMgr.TaskStatus.cancelled, finished_at := some (TaskMgr.stateAt cap acts k).clock, cancel_requested := true })
      (fun _ => rfl), if_pos rfl]
    show ((TaskMgr.findTask (TaskMgr.stateAt cap acts k) tid).map _).map _ = _
    rw [hfind]
    rfl
  refine ⟨hstat, ?_, ?_, ?_⟩
  · intro m hc
    by_cases hm : m ≤ k
    · have hmono := TaskMgr.statusRank_mono cap acts tid hm
      rw [hc, hp] at hmono
      simp [TaskMgr.statusRank] at hmono
    · have hge : k + 1 ≤ m := by omega
      have hstable := TaskMgr.statusOf_terminal_stable cap acts tid
        (show TaskMgr.TaskStatus.cancelled.isTerminal = true from rfl) hge hstat
      rw [hstable] at hc
      simp at hc
  · intro g slot' hl' hmem
    have hI' := TaskMgr.Inv_stateAt cap acts (k + 1)
    obtain ⟨t, htmem, htid, hgr, hpend⟩ := hI'.waiter_pending g slot' hl' tid hmem
    have hft : TaskMgr.findTask (TaskMgr.stateAt cap acts (k + 1)) tid = some t :=
      (TaskMgr.findTask_eq_some_iff _ tid t hI'.ids_nodup).mpr ⟨htmem, htid⟩
    have hsp : TaskMgr.statusOf (TaskMgr.stateAt cap acts (k + 1)) tid
        = some TaskMgr.TaskStatus.pending := by
      rw [TaskMgr.statusOf, hft]
      show some t.status = _
      rw [hpend]
    rw [hstat] at hsp
    simp at hsp
  · intro g slot slot' hs hs'
    rw [hredu] at hs'
    have hs'' : TaskMgr.lookupGroup (TaskMgr.removeWaiter (TaskMgr.stateAt cap acts k)
        t0.group_id tid) g = some slot' := hs'
    rw [TaskMgr.removeWaiter, TaskMgr.lookupGroup_updateGroup] at hs''
    by_cases hgg : g = t0.group_id
    · rw [if_pos hgg] at hs''
      rw [hgg] at hs
      rw [hs] at hs''
      have h2 := Option.some.inj hs''
      rw [← h2]
    · rw [if_neg hgg] at hs''
      rw [hs] at hs''
      rw [Option.some.inj hs'']

/-- Witness for C5: with capacity 0 the group is saturated, so the
submitted task stays Pending; cancelling it at step 1 makes it Cancelled
at step 2. -/
theorem c5_cancel_pending_witness :
    ([.submit (some "g") (some "p"), .cancel 0] : List TaskMgr.Action)[1]?
      = some (.cancel 0) ∧
    TaskMgr.statusOf (TaskMgr.stateAt (fun _ => 0)
      [.submit (some "g") (some "p"), .cancel 0] 1) 0
      = some TaskMgr.TaskStatus.pending ∧
    TaskMgr.statusOf (TaskMgr.stateAt (fun _ => 0)
      [.submit (some "g") (some "p"), .cancel 0] 2) 0
      = some TaskMgr.TaskStatus.cancelled := by
  refine ⟨by decide, by decide, ?_⟩
  exact (c5_cancel_pending (fun _ => 0) [.submit (some "g") (some "p"), .cancel 0] 1 0
    (by decide) (by decide)).1

/-- C6: when the engine call of a Running task returns an error, the
Runner makes the task Failed with `error` and `finished_at` set and
`result` absent, releases the group permit (`in_use` drops by one), and
the task stays Failed at every later instant (never retried); moreover in
every reachable state of every execution, `result` is present only on
Completed tasks and `error` only on Failed tasks. -/
theorem c6_engine_error (cap : String → ℕ) (acts : List TaskMgr.Action) (k tid : ℕ)
    (e : String) (ha : acts[k]? = some (.finishErr tid e))
    (hr : TaskMgr.statusOf (TaskMgr.stateAt cap acts k) tid
      = some TaskMgr.TaskStatus.running) :
    (∃ t', TaskMgr.findTask (TaskMgr.stateAt cap acts (k + 1)) tid = some t' ∧
      t'.status = TaskMgr.TaskStatus.failed ∧ t'.error = some e ∧
      t'.finished_at ≠ none ∧ t'.result = none) ∧
    (∀ m, k + 1 ≤ m → TaskMgr.statusOf (TaskMgr.stateAt cap acts m) tid
      = some TaskMgr.TaskStatus.failed) ∧
    (∀ t0, TaskMgr.findTask (TaskMgr.stateAt cap acts k) tid = some t0 →
      ∀ slot slot',
        TaskMgr.lookupGroup (TaskMgr.stateAt cap acts k) t0.group_id = some slot →
        TaskMgr.lookupGroup (TaskMgr.stateAt cap acts (k + 1)) t0.group_id = some slot' →
        slot'.in_use + 1 = slot.in_use) ∧
    (∀ (cap2 : String → ℕ) (acts2 : List TaskMgr.Action),
      ∀ t ∈ (TaskMgr.run cap2 acts2).tasks,
        (t.result ≠ none → t.status = TaskMgr.TaskStatus.completed) ∧
        (t.error ≠ none → t.status = TaskMgr.TaskStatus.failed)) := by
  obtain ⟨t0, hfind, ht0r⟩ := TaskMgr.statusOf_inv _ tid _ hr
  have hI := TaskMgr.Inv_stateAt cap acts k
  obtain ⟨ht0mem, ht0id⟩ :=
    (TaskMgr.findTask_eq_some_iff _ tid t0 hI.ids_nodup).mp hfind
  have hres0 := hI.running_clean t0 ht0mem ht0r
  have hstep := TaskMgr.stateAt_succ cap acts k _ ha
  have hredu : TaskMgr.stateAt cap acts (k + 1)
      = TaskMgr.updateTask (TaskMgr.releasePermit (TaskMgr.stateAt cap acts k)
          t0.group_id) tid
        (fun u => { u with status := TaskMgr.TaskStatus.failed, error := some e, finished_at := some (TaskMgr.stateAt cap acts k).clock }) := by
    rw [hstep]
    exact TaskMgr.finishErr_running_eq _ tid e t0 hfind ht0r
  have hfind' : TaskMgr.findTask (TaskMgr.stateAt cap acts (k + 1)) tid
      = some { t0 with status := TaskMgr.TaskStatus.failed, error := some e, finished_at := some (TaskMgr.stateAt cap acts k).clock } := by
    rw [hredu, TaskMgr.findTask_updateTask _ _ _
      (fun u : TaskMgr.Task => { u with status := TaskMgr.TaskStatus.failed, error := some e, finished_at := some (TaskMgr.stateAt cap acts k).clock })
      (fun _ => rfl), if_pos rfl]
    show (TaskMgr.findTask (TaskMgr.stateAt cap acts k) tid).map _ = _
    rw [hfind]
    rfl
  have hstat1 : TaskMgr.statusOf (TaskMgr.stateAt cap acts (k + 1)) tid
      = some TaskMgr.TaskStatus.failed := by
    rw [TaskMgr.statusOf, hfind']
    rfl
  refine ⟨?_, ?_, ?_, ?_⟩
  · exact ⟨_, hfind', rfl, rfl, by simp, hres0.1⟩
  · intro m hm
    exact TaskMgr.statusOf_terminal_stable cap acts tid
      (show TaskMgr.TaskStatus.failed.isTerminal = true from rfl) hm hstat1
  · intro t0' hfind0 slot slot' hs hs'
    have ht00 : t0' = t0 := by
      rw [hfind0] at hfind
      exact Option.some.inj hfind
    rw [ht00] at hs hs'
    rw [hredu] at hs'
    have hs'' : TaskMgr.lookupGroup (TaskMgr.releasePermit (TaskMgr.stateAt cap acts k)
        t0.group_id) t0.group_id = some slot' := hs'
    rw [TaskMgr.releasePermit, TaskMgr.lookupGroup_updateGroup, if_pos rfl, hs] at hs''
    have h2 := Option.some.inj hs''
    have hpos : 1 ≤ slot.in_use := by
      rw [hI.in_use_eq _ slot hs, TaskMgr.runningCount, Nat.succ_le_iff,
        List.countP_pos_iff]
      exact ⟨t0, ht0mem, by rw [ht0r]; simp⟩
    rw [← h2]
    show slot.in_use - 1 + 1 = slot.in_use
    omega
  · intro cap2 acts2 t ht
    have hI2 := TaskMgr.Inv_run cap2 acts2
    exact ⟨fun hres => hI2.result_completed t ht hres,
      fun herr => hI2.error_failed t ht herr⟩

/-- Witness for C6: a concrete running task failed by the engine. -/
theorem c6_engine_error_witness :
    ([.submit (some "g") (some "p"), .grant "g", .finishErr 0 "boom"] :
      List TaskMgr.Action)[2]? = some (.finishErr 0 "boom") ∧
    TaskMgr.statusOf (TaskMgr.stateAt (fun _ => 5)
      [.submit (some "g") (some "p"), .grant "g", .finishErr 0 "boom"] 2) 0
      = some TaskMgr.TaskStatus.running ∧
    TaskMgr.statusOf (TaskMgr.stateAt (fun _ => 5)
      [.submit (some "g") (some "p"), .grant "g", .finishErr 0 "boom"] 3) 0
      = some TaskMgr.TaskStatus.failed := by
  refine ⟨by decide, by decide, ?_⟩
  exact (c6_engine_error (fun _ => 5)
    [.submit (some "g") (some "p"), .grant "g", .finishErr 0 "boom"] 2 0 "boom"
    (by decide) (by decide)).2.1 3 (by omega)

/-- C7: once a task has a terminal record, every `wait` issued at any
later instant returns immediately (no suspension) with that same terminal
outcome — the outcome latched at the instant of completion, which is what
a waiter blocked before completion receives when woken; hence every
waiter, early or late, observes one and the same outcome. -/
theorem c7_wait_terminal (cap : String → ℕ) (acts : List TaskMgr.Action) (tid : ℕ)
    (t : TaskMgr.Task) (k m : ℕ) (hkm : k ≤ m)
    (hf : TaskMgr.findTask (TaskMgr.stateAt cap acts k) tid = some t)
    (ht : t.status.isTerminal = true) :
    TaskMgr.waitView (TaskMgr.stateAt cap acts m) tid
      = .immediate ⟨t.status, t.result, t.error⟩ :=
  TaskMgr.waitView_eq _ tid t
    (TaskMgr.findTask_terminal_stable cap acts tid t ht hkm hf) ht

/-- Witness for C7: a completed task's record at step 3, and the immediate
wait outcome observed one step later. -/
theorem c7_wait_terminal_witness :
    TaskMgr.findTask (TaskMgr.stateAt (fun _ => 5)
      [.submit (some "g") (some "p"), .grant "g", .finishOk 0 "r"] 3) 0
      = some { id := 0, group_id := "g", payload := "p",
               status := TaskMgr.TaskStatus.completed, created_at := 0,
               started_at := some 1, finished_at := some 1, result := some "r",
               error := none, cancel_requested := false } ∧
    TaskMgr.waitView (TaskMgr.stateAt (fun _ => 5)
      [.submit (some "g") (some "p"), .grant "g", .finishOk 0 "r"] 4) 0
      = .immediate ⟨TaskMgr.TaskStatus.completed, some "r", none⟩ := by
  refine ⟨by decide, ?_⟩
  exact c7_wait_terminal (fun _ => 5)
    [.submit (some "g") (some "p"), .grant "g", .finishOk 0 "r"] 0
    { id := 0, group_id := "g", payload := "p",
      status := TaskMgr.TaskStatus.completed, created_at := 0,
      started_at := some 1, finished_at := some 1, result := some "r",
      error := none, cancel_requested := false }
    3 4 (by omega) (by decide) (by decide)
